import Mathlib

/-!
# Verification of the KPI-drift widget detection / pairing / comparison core

Shallow embedding of the algorithmic core of the repository:

* `KDH.Quality` — `a2_kpidrift_quality.py` (score_widget, iou, constants);
* `KDH.PowerBI` — the candidate collection, IoU dedupe loop and title logic of
  `a2_kpidrift_widgetextractor_power_bi.py`;
* `KDH.Persist` — `a2_kpidrift_persist.py` (upsert_screengrab);
* `KDH.Pairing` — the SCD-2 pair upsert and batch persist loop of
  `24_kpidrift_parseandcompare.py`;
* `KDH.Compare` — the numeric comparison of `24_kpidrift_parseandcompare.py`
  and the SCD-2 compare upsert of `a2_kpidrift_pair_compare.py`;
* `KDH.Capture` — the browser-engine fallback of `21_kpidrift_runthescan.py`.

Machine floats of the source are embedded as exact rationals (`ℚ`) where the
properties at stake are robust to rounding; `KDH.FloatModel` additionally
embeds the IEEE-754 binary64 arithmetic of `score_widget` exactly (integer
mantissa/exponent pairs with round-to-nearest-even), for the one claim that
is decided by float rounding at the 0.60 threshold boundary.  The database
tables are embedded as in-memory lists of rows with the unique / filter
semantics the code relies on.
-/

namespace KDH

namespace Quality

/-- Base detection gates (`MIN_W, MIN_H = 150, 100`). -/
def MIN_W : Int := 150

def MIN_H : Int := 100

/-- Final threshold for "good" (`QUALITY_THRESHOLD = 0.60`). -/
def QUALITY_THRESHOLD : ℚ := 60/100

def IOU_DROP_SAME_KIND : ℚ := 72/100

def HARD_AR_LOW : ℚ := 60/100

def HARD_AR_HIGH : ℚ := 350/100

def SOFT_AR_LOW : ℚ := 80/100

def SOFT_AR_HIGH : ℚ := 220/100

def MIN_GOOD_W : Int := 220

def MIN_GOOD_H : Int := 160

def MIN_GOOD_AREA : Int := 160000

/-- Python `round(q, 3)`.  Python rounds ties to even; `round` in Mathlib
rounds ties up.  Every value this development rounds is a multiple of `1/20`
(`score`) whose scaled value `q * 1000` is an integer, so no tie is ever hit
and the two rules agree on the reachable domain. -/
def round3 (q : ℚ) : ℚ := (round (q * 1000) : ℤ) / 1000

/-- Result dictionary of `score_widget`.  The CSV `quality_reason` string is
kept as the list of reason codes in append order (the code joins them with
commas for display only). -/
structure ScoreResult where
  quality : String
  quality_score : ℚ
  quality_reason : List String
  area_px : Int
  selector_kind : String
  title_present : Bool
  w : Int
  h : Int
  ar : ℚ
  deriving Repr, DecidableEq

/-- `score -= 0.7` / `score += 0.2` of the size gate. -/
def step_size (w h : Int) : ℚ :=
  if w < MIN_W ∨ h < MIN_H then -(7/10) else 2/10

/-- Selector priority bonus. -/
def step_selector (kind : String) : ℚ :=
  if kind = "container" ∨ kind = "tableau" then 6/10
  else if kind = "role" then 3/10
  else 15/100

/-- Title proximity bonus. -/
def step_title (tp : Bool) : ℚ := if tp then 35/100 else 0

/-- `hard_ar_violation` condition. -/
def hard_ar_violation (ar : ℚ) : Prop := ar < HARD_AR_LOW ∨ HARD_AR_HIGH < ar

instance (ar : ℚ) : Decidable (hard_ar_violation ar) := by
  unfold hard_ar_violation; infer_instance

/-- HARD aspect ratio penalty. -/
def step_hard_ar (ar : ℚ) : ℚ := if hard_ar_violation ar then -(6/10) else 0

/-- SOFT aspect ratio penalty. -/
def step_soft_ar (ar : ℚ) : ℚ :=
  if ar < SOFT_AR_LOW ∨ SOFT_AR_HIGH < ar then -(35/100) else 0

def good_size_ok (w h area : Int) : Prop :=
  MIN_GOOD_W ≤ w ∧ MIN_GOOD_H ≤ h ∧ MIN_GOOD_AREA ≤ area

instance (w h area : Int) : Decidable (good_size_ok w h area) := by
  unfold good_size_ok; infer_instance

def is_container_with_title (kind : String) (tp : Bool) : Prop :=
  (kind = "container" ∨ kind = "tableau") ∧ tp = true

instance (kind : String) (tp : Bool) : Decidable (is_container_with_title kind tp) := by
  unfold is_container_with_title; infer_instance

/-- MIN "good" size penalty. -/
def step_good_size (kind : String) (w h area : Int) (tp : Bool) : ℚ :=
  if ¬ good_size_ok w h area ∧ ¬ is_container_with_title kind tp then -(35/100) else 0

/-- Rescue rule, hard-aspect part. -/
def step_rescue_hard (kind : String) (tp : Bool) (ar : ℚ) : ℚ :=
  if is_container_with_title kind tp ∧ hard_ar_violation ar then -(25/100) else 0

/-- Rescue rule, minimal-substance part. -/
def step_rescue_small (kind : String) (tp : Bool) (w h area : Int) : ℚ :=
  if is_container_with_title kind tp ∧ (w < 180 ∨ h < 140 ∨ area < 120000) then -(2/10) else 0

/-- The raw accumulated score of `score_widget` before clamping.  The source
mutates one `score` accumulator through a sequence of condition-guarded
additions whose guards never read the accumulator, so the final value is the
sum of the independent contributions. -/
def raw_score (kind : String) (w h area : Int) (ar : ℚ) (tp : Bool) : ℚ :=
  step_size w h + step_selector kind + step_title tp + step_hard_ar ar +
    step_soft_ar ar + step_good_size kind w h area tp +
    step_rescue_hard kind tp ar + step_rescue_small kind tp w h area

/-- `score = max(0.0, min(1.0, score))`. -/
def clamp01 (q : ℚ) : ℚ := max 0 (min 1 q)

/-- The reason codes appended by `score_widget`, in source append order. -/
def reason_codes (kind : String) (w h area : Int) (ar : ℚ) (tp : Bool) : List String :=
  (if w < MIN_W ∨ h < MIN_H then ["too_small"] else []) ++
  (if kind = "container" ∨ kind = "tableau" then []
   else if kind = "role" then [] else ["primitive_selector"]) ++
  (if tp then [] else ["no_title"]) ++
  (if hard_ar_violation ar then ["hard_ar_violation"] else []) ++
  (if ar < SOFT_AR_LOW ∨ SOFT_AR_HIGH < ar then ["bad_aspect_ratio"] else []) ++
  (if ¬ good_size_ok w h area ∧ ¬ is_container_with_title kind tp
   then ["too_small_for_good"] else []) ++
  (if is_container_with_title kind tp ∧ hard_ar_violation ar
   then ["no_rescue_hard_ar"] else []) ++
  (if is_container_with_title kind tp ∧ (w < 180 ∨ h < 140 ∨ area < 120000)
   then ["container_title_but_too_small"] else [])

/-- `score_widget(selector_kind, bbox_xywh, title_present)` of
`a2_kpidrift_quality.py`. -/
def score_widget (selector_kind : String) (bbox_xywh : Int × Int × Int × Int)
    (title_present : Bool) : ScoreResult :=
  match bbox_xywh with
  | (_x, _y, w, h) =>
    let area : Int := max 1 w * max 1 h
    let ar : ℚ := (w : ℚ) / ((max 1 h : Int) : ℚ)
    let score : ℚ := clamp01 (raw_score selector_kind w h area ar title_present)
    { quality := if QUALITY_THRESHOLD ≤ score then "good" else "junk"
      quality_score := round3 score
      quality_reason := reason_codes selector_kind w h area ar title_present
      area_px := area
      selector_kind := selector_kind
      title_present := title_present
      w := w
      h := h
      ar := round3 ar }

/-- `iou(a, b)` of `a2_kpidrift_quality.py`: intersection over union with an
integer `max(1, ua)` guard in the denominator. -/
def iou (a b : Int × Int × Int × Int) : ℚ :=
  match a, b with
  | (ax, ay, aw, ah), (bx, by_, bw, bh) =>
    let x1 := max ax bx
    let y1 := max ay by_
    let x2 := min (ax + aw) (bx + bw)
    let y2 := min (ay + ah) (by_ + bh)
    let inter : Int := max 0 (x2 - x1) * max 0 (y2 - y1)
    if inter ≤ 0 then 0
    else (inter : ℚ) / ((max 1 (aw * ah + bw * bh - inter) : Int) : ℚ)

end Quality

namespace FloatModel

/-! Exact embedding of the IEEE-754 binary64 arithmetic that the program
actually performs inside `score_widget`.  A finite double is a dyadic
rational `m * 2^e` with `|m| < 2^53` (kept possibly unnormalized); each
operation computes the exact rational result and rounds it to 53 significant
bits with round-to-nearest, ties-to-even — the IEEE default.  Everything is
integer arithmetic, so concrete runs reduce in the kernel.  The score
accumulation stays within normal double range, far from overflow and
subnormals, where this rounding rule is the whole semantics. -/

/-- A binary64 value `m * 2^e`. -/
structure F where
  m : Int
  e : Int
  deriving Repr, DecidableEq

/-- Bit length of a natural number (fuel-structural for kernel reduction). -/
def fbitlenAux : Nat → Nat → Nat
  | 0, _ => 0
  | fuel + 1, n => if n = 0 then 0 else fbitlenAux fuel (n / 2) + 1

def fbitlen (n : Nat) : Nat := fbitlenAux 256 n

/-- `A / B` rounded to the nearest integer, ties to even. -/
def roundHalfEvenDiv (A B : Nat) : Nat :=
  let q := A / B
  let r := A % B
  if 2 * r < B then q
  else if B < 2 * r then q + 1
  else if q % 2 = 0 then q else q + 1

/-- Round the exact value `M * 2^E` to 53 significant bits, nearest-even. -/
def roundF (M : Int) (E : Int) : F :=
  if M = 0 then ⟨0, 0⟩
  else
    let A := M.natAbs
    let L := fbitlen A
    if L ≤ 53 then ⟨M, E⟩
    else
      let sh := L - 53
      let q := roundHalfEvenDiv A (2 ^ sh)
      ⟨if M < 0 then -(q : Int) else (q : Int), E + (sh : Int)⟩

/-- IEEE double addition: exact sum, then one rounding. -/
def fl_add (x y : F) : F :=
  let E := min x.e y.e
  roundF (x.m * 2 ^ (x.e - E).toNat + y.m * 2 ^ (y.e - E).toNat) E

def fneg (x : F) : F := ⟨-x.m, x.e⟩

/-- IEEE double subtraction (negation is exact). -/
def fl_sub (x y : F) : F := fl_add x (fneg y)

/-- `2^e ≤ a / b`? -/
def ge2pow (a b : Nat) (e : Int) : Bool :=
  if 0 ≤ e then decide (b * 2 ^ e.toNat ≤ a) else decide (b ≤ a * 2 ^ (-e).toNat)

/-- Round the exact rational `n / d` (`d > 0`) to the nearest double. -/
def roundQfrac (n : Int) (d : Nat) : F :=
  if n = 0 then ⟨0, 0⟩
  else
    let a := n.natAbs
    let e0 : Int := (fbitlen a : Int) - (fbitlen d : Int)
    let e := if ge2pow a d e0 then e0 else e0 - 1
    let s : Int := 52 - e
    let q := if 0 ≤ s then roundHalfEvenDiv (a * 2 ^ s.toNat) d
             else roundHalfEvenDiv a (d * 2 ^ (-s).toNat)
    ⟨if n < 0 then -(q : Int) else (q : Int), e - 52⟩

/-- Python true division `a / b` of integers (`b > 0`), returning a double. -/
def fl_div (a : Int) (b : Nat) : F := roundQfrac a b

/-- Exact comparison of two doubles (doubles compare by value). -/
def fcmp_le (x y : F) : Bool :=
  let E := min x.e y.e
  decide (x.m * 2 ^ (x.e - E).toNat ≤ y.m * 2 ^ (y.e - E).toNat)

def fcmp_lt (x y : F) : Bool :=
  let E := min x.e y.e
  decide (x.m * 2 ^ (x.e - E).toNat < y.m * 2 ^ (y.e - E).toNat)

/-- Python `round(x, 3)` on a double: round the exact value to the closest
multiple of `1/1000` (ties to even), then take the nearest double. -/
def fround3 (x : F) : F :=
  let num : Int := x.m * 1000
  let k : Int :=
    if 0 ≤ x.e then num * 2 ^ x.e.toNat
    else
      let q := roundHalfEvenDiv num.natAbs (2 ^ (-x.e).toNat)
      if num < 0 then -(q : Int) else (q : Int)
  roundQfrac k 1000

/-! The exact binary64 values of the float literals of
`a2_kpidrift_quality.py` (each is the nearest double to the decimal literal,
e.g. `0.2 = 3602879701896397 * 2^-54`). -/

def f00 : F := ⟨0, 0⟩

def f02 : F := ⟨3602879701896397, -54⟩

def f03 : F := ⟨5404319552844595, -54⟩

def f015 : F := ⟨5404319552844595, -55⟩

def f035 : F := ⟨3152519739159347, -53⟩

def f06 : F := ⟨5404319552844595, -53⟩

def f07 : F := ⟨3152519739159347, -52⟩

def f025 : F := ⟨1, -2⟩

def f08 : F := ⟨3602879701896397, -52⟩

def f22 : F := ⟨2476979795053773, -50⟩

def f35 : F := ⟨7, -1⟩

def f10 : F := ⟨1, 0⟩

/-- The quality label and rounded score of `score_widget` as the program
computes them, float step by float step. -/
structure FScoreResult where
  quality : String
  quality_score : F
  deriving Repr, DecidableEq

/-- `score_widget` under IEEE binary64 semantics: the same sequential
accumulator as the source, each `+=`/`-=` one double addition, `ar` a double
division, the clamp `max(0.0, min(1.0, score))`, the label from the
unrounded accumulator, and the returned score from `round(score, 3)`. -/
def float_score_widget (selector_kind : String) (bbox_xywh : Int × Int × Int × Int)
    (title_present : Bool) : FScoreResult :=
  match bbox_xywh with
  | (_x, _y, w, h) =>
    let area : Int := max 1 w * max 1 h
    let ar : F := fl_div w (max 1 h).toNat
    let s1 := if w < Quality.MIN_W ∨ h < Quality.MIN_H then fl_sub f00 f07
              else fl_add f00 f02
    let s2 := if selector_kind = "container" ∨ selector_kind = "tableau" then
                fl_add s1 f06
              else if selector_kind = "role" then fl_add s1 f03
              else fl_add s1 f015
    let s3 := if title_present then fl_add s2 f035 else s2
    let hard := fcmp_lt ar f06 || fcmp_lt f35 ar
    let s4 := if hard then fl_sub s3 f06 else s3
    let s5 := if fcmp_lt ar f08 || fcmp_lt f22 ar then fl_sub s4 f035 else s4
    let s6 := if ¬ Quality.good_size_ok w h area ∧
                  ¬ Quality.is_container_with_title selector_kind title_present then
                fl_sub s5 f035
              else s5
    let s7 := if Quality.is_container_with_title selector_kind title_present ∧
                  hard = true then
                fl_sub s6 f025
              else s6
    let s8 := if Quality.is_container_with_title selector_kind title_present ∧
                  (w < 180 ∨ h < 140 ∨ area < 120000) then
                fl_sub s7 f02
              else s7
    let smin := if fcmp_lt f10 s8 then f10 else s8
    let sc := if fcmp_lt smin f00 then f00 else smin
    { quality := if fcmp_le f06 sc then "good" else "junk"
      quality_score := fround3 sc }

end FloatModel

namespace PowerBI

/-! Embedding of the detection, dedupe and title logic of
`a2_kpidrift_widgetextractor_power_bi.py`.  A DOM handle is embedded as a
function from a selector group to the list of bounding boxes of its matched
elements (`none` when `el.bounding_box()` returns nothing, mirroring the
`if not bb: continue` skip). -/

/-- A bounding box `(x, y, w, h)` in image pixels. -/
abbrev Box := Int × Int × Int × Int

/-- One `(sel, box, kind)` candidate of the extraction loop. -/
structure Cand where
  sel : String
  box : Box
  kind : String
  deriving Repr, DecidableEq

/-- Substring containment, Python `needle in s`. -/
def containsSub (needle s : String) : Bool := decide (needle.toList <:+: s.toList)

/-- The fixed Power BI selector groups of `extract`. -/
def selectors : List String :=
  [".visualContainer, .visualContainerHost, .modernVisualOverlay",
   "[role=\x27figure\x27], [role=\x27img\x27]",
   "svg, canvas"]

/-- `_kind_of(sel)`. -/
def kind_of (sel : String) : String :=
  if containsSub ".visualContainer" sel || containsSub ".modernVisualOverlay" sel then
    "container"
  else if containsSub "[role=" sel then "role"
  else "primitive"

/-- The candidate collection loop: per selector group take at most 60 matched
elements, skip elements without a bounding box, and discard boxes below the
minimum width/height. -/
def collect_candidates (dom : String → List (Option Box)) : List Cand :=
  selectors.flatMap (fun sel =>
    ((dom sel).take 60).filterMap (fun obb =>
      match obb with
      | none => none
      | some (x, y, w, h) =>
        if w < Quality.MIN_W ∨ h < Quality.MIN_H then none
        else some ⟨sel, (x, y, w, h), kind_of sel⟩))

/-- `_iou_local(a, b)` (same formula as `Quality.iou`, with an `inter == 0`
early return). -/
def iou_local (a b : Box) : ℚ :=
  match a, b with
  | (ax, ay, aw, ah), (bx, by_, bw, bh) =>
    let x1 := max ax bx
    let y1 := max ay by_
    let x2 := min (ax + aw) (bx + bw)
    let y2 := min (ay + ah) (by_ + bh)
    let inter : Int := max 0 (x2 - x1) * max 0 (y2 - y1)
    if inter = 0 then 0
    else (inter : ℚ) / ((max 1 (aw * ah + bw * bh - inter) : Int) : ℚ)

/-- The two drop rules of the dedupe loop, for candidate `c` against an
already kept box `k`. -/
def drops (k c : Cand) : Bool :=
  let overlap := iou_local c.box k.box
  (decide (65/100 < overlap) && (k.kind == "container") &&
    ((c.kind == "primitive") || (c.kind == "role"))) ||
  (decide (72/100 < overlap) && (k.kind == c.kind))

/-- The dedupe scan: keep a candidate unless some already-kept box triggers a
drop rule. -/
def dedupe_loop : List Cand → List Cand → List Cand
  | kept, [] => kept
  | kept, c :: rest =>
    if kept.any (fun k => drops k c) then dedupe_loop kept rest
    else dedupe_loop (kept ++ [c]) rest

/-- `sorted(candidates, key=lambda c: (c[1][1], c[1][0]))`: stable ascending
sort by (top edge, left edge). -/
def scan_le (a b : Cand) : Prop :=
  a.box.2.1 < b.box.2.1 ∨ (a.box.2.1 = b.box.2.1 ∧ a.box.1 ≤ b.box.1)

instance : DecidableRel scan_le := fun a b => by unfold scan_le; infer_instance

/-- Sort in scan order, then run the dedupe loop with an empty kept list. -/
def dedupe (cands : List Cand) : List Cand :=
  dedupe_loop [] (List.insertionSort scan_le cands)

/-- Python `str.strip` over a character list. -/
def strip (s : List Char) : List Char :=
  ((s.dropWhile Char.isWhitespace).reverse.dropWhile Char.isWhitespace).reverse

/-- One iteration of the `_find_title_near` loop over heading elements:
elements without a bounding box are skipped; a stripped non-empty label
strictly above the box (`0 < dy < 220`) that horizontally overlaps it becomes
the new closest candidate. -/
def title_step (bx by_ bw : Int) (acc : Option (List Char) × Int)
    (hd : Option Box × List Char) : Option (List Char) × Int :=
  match hd with
  | (none, _) => acc
  | (some (tx, ty, tw, _th), txt) =>
    if ty < by_ ∧ tx < bx + bw ∧ bx < tx + tw then
      let dy := by_ - ty
      if 0 < dy ∧ dy < 220 ∧ dy < acc.2 then
        let label := strip txt
        if label ≠ [] then (some label, dy) else acc
      else acc
    else acc

/-- `_find_title_near(frame, box)`: scan at most 20 heading elements, keep the
closest stripped non-empty label strictly above the box. -/
def find_title_near (headings : List (Option Box × List Char)) (box : Box) :
    Option (List Char) :=
  match box with
  | (bx, by_, bw, _bh) =>
    ((headings.take 20).foldl (title_step bx by_ bw) (none, 99999)).1

/-- Python `x or default` on an optional string: the default replaces both
`None` and the empty string. -/
def py_or (x : Option (List Char)) (default : List Char) : List Char :=
  match x with
  | none => default
  | some s => if s = [] then default else s

/-- `title = _find_title_near(frame, (x, y, w, h)) or "Widget"`. -/
def title_for (headings : List (Option Box × List Char)) (box : Box) : List Char :=
  py_or (find_title_near headings box) "Widget".toList

/-- `title_present=bool(title.strip())` at the `score_widget` call. -/
def title_present_flag (headings : List (Option Box × List Char)) (box : Box) : Bool :=
  decide (strip (title_for headings box) ≠ [])

def PAD : Int := 12

/-- Padded crop size `pw_, ph_ = max(1, w+2*PAD), max(1, h+2*PAD)`. -/
def padded_wh (w h : Int) : Int × Int := (max 1 (w + 2 * PAD), max 1 (h + 2 * PAD))

/-- The `score_widget` call of the extraction loop: the crop size is passed in
every bbox slot (`bbox_xywh=(pw_, ph_, pw_, ph_)`). -/
def widget_quality (kind : String) (w h : Int) (title_flag : Bool) :
    Quality.ScoreResult :=
  let p := padded_wh w h
  Quality.score_widget kind (p.1, p.2, p.1, p.2) title_flag

end PowerBI

namespace Persist

/-! Embedding of `upsert_screengrab` of `a2_kpidrift_persist.py`.  The
`kdh_screengrab_dim` table is a list of rows with a unique constraint on
`screengrab_hashvalue`; `uuid4` draws are embedded as a fresh-id counter.
The SHA-256 content hash and the `urlparse` host extraction are abstracted
as function parameters (the claim only needs that equal bytes hash equally,
which holds for every function). -/

structure SgRow where
  screengrab_id : Nat
  capture_session_id : String
  url : String
  platform : String
  detected_via : String
  platform_confidence : ℚ
  screengrab_hashvalue : String
  storage_bucket : String
  storage_path_full : String
  wrapper_host : Option String
  user_id : Option String
  captured_at : Nat
  rec_eff_strt_dt : Nat
  curr_rec_ind : Bool
  deriving Repr, DecidableEq

structure SgStore where
  rows : List SgRow
  nextId : Nat
  deriving Repr, DecidableEq

/-- `upsert_screengrab`: build the row, attempt the insert, and on a
uniqueness conflict on the content hash fetch and return the existing row. -/
def upsert_screengrab (hash : List Nat → String) (url_host : String → Option String)
    (st : SgStore) (session_id url platform : String) (full_png_bytes : List Nat)
    (storage_bucket storage_path_full : String) (user_id : Option String)
    (now : Nat) : SgRow × SgStore :=
  let row : SgRow :=
    { screengrab_id := st.nextId
      capture_session_id := session_id
      url := url
      platform := if platform = "" then "unknown" else platform
      detected_via := "url"
      platform_confidence :=
        if platform = "powerbi" ∨ platform = "tableau" then 990/1000 else 500/1000
      screengrab_hashvalue := hash full_png_bytes
      storage_bucket := storage_bucket
      storage_path_full := storage_path_full
      wrapper_host := url_host url
      user_id := user_id
      captured_at := now
      rec_eff_strt_dt := now
      curr_rec_ind := true }
  match st.rows.find? (fun r => r.screengrab_hashvalue == row.screengrab_hashvalue) with
  | some existing => (existing, { st with nextId := st.nextId + 1 })
  | none => (row, { rows := st.rows ++ [row], nextId := st.nextId + 1 })

end Persist

namespace Pairing

/-! Embedding of `scd2_upsert_pair` and the batch persist loop of
`24_kpidrift_parseandcompare.py`.  `kdh_pair_map_dim` is a list of rows;
database-generated `pair_id` values are a fresh-id counter. -/

structure PairRow where
  pair_id : Nat
  widget_id_left : String
  widget_id_right : String
  left_session_id : Option String
  right_session_id : Option String
  pair_number : Option Int
  insrt_dttm : Nat
  rec_eff_strt_dt : Nat
  rec_eff_end_dt : Option Nat
  curr_rec_ind : Bool
  status : String
  deriving Repr, DecidableEq

structure PairStore where
  rows : List PairRow
  nextId : Nat
  deriving Repr, DecidableEq

/-- The `select ... eq(widget_id_left).eq(widget_id_right).eq(curr_rec_ind,
True)` filter. -/
def pair_key_current (wl wr : String) (r : PairRow) : Bool :=
  r.widget_id_left == wl && r.widget_id_right == wr && r.curr_rec_ind

/-- The `update({curr_rec_ind: False, rec_eff_end_dt: now}).eq("pair_id", ...)`
row patch. -/
def end_date_if (pid : Nat) (now : Nat) (r : PairRow) : PairRow :=
  if r.pair_id = pid then { r with curr_rec_ind := false, rec_eff_end_dt := some now }
  else r

/-- `scd2_upsert_pair(widget_left, widget_right, left_sess, right_sess,
pair_number)`: returns `(action, pair_id)` and the new table state. -/
def scd2_upsert_pair (st : PairStore) (now : Nat) (wl wr : String)
    (ls rs : Option String) (pn : Option Int) : (String × Option Nat) × PairStore :=
  match st.rows.find? (pair_key_current wl wr) with
  | some row =>
    if row.left_session_id = ls ∧ row.right_session_id = rs ∧ row.pair_number = pn then
      (("unchanged", some row.pair_id), st)
    else
      (("inserted", some st.nextId),
        { rows := st.rows.map (end_date_if row.pair_id now) ++
            [⟨st.nextId, wl, wr, ls, rs, pn, now, now, none, true, "active"⟩],
          nextId := st.nextId + 1 })
  | none =>
    (("inserted", some st.nextId),
      { rows := st.rows ++ [⟨st.nextId, wl, wr, ls, rs, pn, now, now, none, true, "active"⟩],
        nextId := st.nextId + 1 })

/-- One human submission to the pairing manager. -/
structure PairOp where
  now : Nat
  widget_left : String
  widget_right : String
  left_sess : Option String
  right_sess : Option String
  pair_number : Option Int

def pair_store_empty : PairStore := ⟨[], 0⟩

def run_pair_ops (ops : List PairOp) : PairStore :=
  ops.foldl
    (fun st op =>
      (scd2_upsert_pair st op.now op.widget_left op.widget_right op.left_sess
        op.right_sess op.pair_number).2)
    pair_store_empty

/-- The current rows of a natural key. -/
def currents (rows : List PairRow) (wl wr : String) : List PairRow :=
  rows.filter (pair_key_current wl wr)

/-- `pairs_scratch` keys: the positive pair numbers typed on either side,
iterated in ascending numeric order. -/
def batch_nums (left right : List (String × Int)) : List Int :=
  List.insertionSort (· ≤ ·) ((((left ++ right).map Prod.snd).filter
    (fun n => decide (0 < n))).dedup)

/-- The widget ids of one side carrying pair number `k`, in scratch order. -/
def side_ids (scratch : List (String × Int)) (k : Int) : List String :=
  (scratch.filter (fun p => decide (p.2 = k))).map Prod.fst

structure BatchAcc where
  store : PairStore
  saved : List (Int × String × String × String)
  issues : List Int
  deriving Repr, DecidableEq

/-- One iteration of the `persist_clicked` loop: persist the pair number iff
exactly one widget carries it on each side, otherwise report it. -/
def batch_step (now : Nat) (left right : List (String × Int)) (ls rs : Option String)
    (acc : BatchAcc) (k : Int) : BatchAcc :=
  match side_ids left k, side_ids right k with
  | [l], [r] =>
    let res := scd2_upsert_pair acc.store now l r ls rs (some k)
    ⟨res.2, acc.saved ++ [(k, l, r, res.1.1)], acc.issues⟩
  | _, _ => ⟨acc.store, acc.saved, acc.issues ++ [k]⟩

/-- The whole `persist_clicked` batch loop. -/
def persist_batch (st : PairStore) (now : Nat) (left right : List (String × Int))
    (ls rs : Option String) : BatchAcc :=
  (batch_nums left right).foldl (batch_step now left right ls rs) ⟨st, [], []⟩

/-- `len(L) == 1 and len(R) == 1`. -/
def one_one (left right : List (String × Int)) (k : Int) : Bool :=
  (side_ids left k).length == 1 && (side_ids right k).length == 1

/-- The SCD-2 invariant: at most one current row per natural key. -/
def at_most_one_current (rows : List PairRow) : Prop :=
  ∀ wl wr, (currents rows wl wr).length ≤ 1

/-- Well-formedness of the embedded table state: the SCD-2 invariant plus
freshness of the id counter. -/
def pair_wf (st : PairStore) : Prop :=
  at_most_one_current st.rows ∧ ∀ r ∈ st.rows, r.pair_id < st.nextId

end Pairing

namespace Compare

/-! Embedding of `_to_df` / `compare_json_values` of
`24_kpidrift_parseandcompare.py`.  The pandas float pipeline is embedded in
exact rational arithmetic.  Pearson correlation divides by the square root of
a product of variances, which has no exact rational form, so the float
comparisons `corr > t` (with `t ≥ 0`, and NaN comparing false) are encoded by
the equivalent sign-and-square conditions on the integer-weighted covariance
`covN = n·Σab − Σa·Σb` and variances `varA = n·Σa² − (Σa)²`,
`varB = n·Σb² − (Σb)²`:
`corr = covN / √(varA·varB)` whenever `varA ≠ 0` and `varB ≠ 0`, and is NaN
otherwise (in particular for a single joined row or a constant column). -/

/-- `_to_df`: keep the data points whose `y` is not `None`. -/
def to_series (dpts : List (String × Option ℚ)) : List (String × ℚ) :=
  dpts.filterMap (fun p => match p.2 with | some y => some (p.1, y) | none => none)

/-- `pd.merge(df_a, df_b, on="x", how="inner")`: for each left row in order,
all right rows with the same x label. -/
def merged (a b : List (String × ℚ)) : List (ℚ × ℚ) :=
  a.flatMap (fun pa =>
    (b.filter (fun pb => decide (pb.1 = pa.1))).map (fun pb => (pa.2, pb.2)))

def nQ (l : List (ℚ × ℚ)) : ℚ := l.length

def sumA (l : List (ℚ × ℚ)) : ℚ := (l.map Prod.fst).sum

def sumB (l : List (ℚ × ℚ)) : ℚ := (l.map Prod.snd).sum

def sumAB (l : List (ℚ × ℚ)) : ℚ := (l.map (fun p => p.1 * p.2)).sum

def sumAA (l : List (ℚ × ℚ)) : ℚ := (l.map (fun p => p.1 ^ 2)).sum

def sumBB (l : List (ℚ × ℚ)) : ℚ := (l.map (fun p => p.2 ^ 2)).sum

def covN (l : List (ℚ × ℚ)) : ℚ := nQ l * sumAB l - sumA l * sumB l

def varA (l : List (ℚ × ℚ)) : ℚ := nQ l * sumAA l - sumA l ^ 2

def varB (l : List (ℚ × ℚ)) : ℚ := nQ l * sumBB l - sumB l ^ 2

/-- The Pearson correlation of the joined frame is a (non-NaN) number. -/
def corr_defined (l : List (ℚ × ℚ)) : Prop := varA l ≠ 0 ∧ varB l ≠ 0

instance (l : List (ℚ × ℚ)) : Decidable (corr_defined l) := by
  unfold corr_defined; infer_instance

/-- Exact encoding of the float comparison `corr > t` for a threshold
`t ≥ 0`; false when the correlation is NaN. -/
def corr_gt (t : ℚ) (l : List (ℚ × ℚ)) : Prop :=
  corr_defined l ∧ 0 < covN l ∧ t ^ 2 * (varA l * varB l) < covN l ^ 2

instance (t : ℚ) (l : List (ℚ × ℚ)) : Decidable (corr_gt t l) := by
  unfold corr_gt; infer_instance

/-- Exact encoding of `corr == 1.0`. -/
def corr_eq_one (l : List (ℚ × ℚ)) : Prop :=
  corr_defined l ∧ 0 < covN l ∧ covN l ^ 2 = varA l * varB l

/-- The `1e-9` division guard. -/
def EPS : ℚ := 1/1000000000

/-- `mape = (abs(a − b) / (abs(b) + 1e-9)).mean()`. -/
def mape (l : List (ℚ × ℚ)) : ℚ :=
  (l.map (fun p => |p.1 - p.2| / (|p.2| + EPS))).sum / nQ l

/-- The verdict of `compare_json_values`. -/
def compare_verdict (a b : List (String × ℚ)) : String :=
  let df := merged a b
  if df = [] then "no_overlap"
  else if corr_gt (95/100) df ∧ mape df < 2/100 then "consistent"
  else if corr_gt (80/100) df then "likely_mismatch"
  else "conflict"

end Compare

namespace CompareStore

/-! Embedding of `PairCompareLLM.scd2_upsert_compare` of
`a2_kpidrift_pair_compare.py`.  The audit blobs (`model_params`,
`numbers_used`) are carried opaquely as part of the payload and do not enter
the natural key. -/

structure CmpRow where
  pair_id : String
  left_extraction_id : Option String
  right_extraction_id : Option String
  left_widget_id : Option String
  right_widget_id : Option String
  compare_mode : String
  model_name : String
  verdict : String
  confidence : ℚ
  reasons : List String
  created_at : Nat
  insrt_dttm : Nat
  rec_eff_strt_dt : Nat
  rec_eff_end_dt : Option Nat
  curr_rec_ind : Bool
  deriving Repr, DecidableEq

/-- The natural-key-and-current filter of the `update` call. -/
def cmp_key_current (pair_id : String) (lext rext : Option String)
    (model_name : String) (r : CmpRow) : Bool :=
  r.pair_id == pair_id && r.left_extraction_id == lext &&
    r.right_extraction_id == rext && r.model_name == model_name && r.curr_rec_ind

/-- `scd2_upsert_compare`: unconditionally end-date every current row of the
natural key, then insert a new current row; returns the inserted row. -/
def scd2_upsert_compare (rows : List CmpRow) (now : Nat) (pair_id : String)
    (lext rext lwid rwid : Option String) (verdict : String) (confidence : ℚ)
    (reasons : List String) (compare_mode model_name : String) :
    CmpRow × List CmpRow :=
  let updated := rows.map (fun r =>
    if cmp_key_current pair_id lext rext model_name r then
      { r with curr_rec_ind := false, rec_eff_end_dt := some now }
    else r)
  let payload : CmpRow :=
    ⟨pair_id, lext, rext, lwid, rwid, compare_mode, model_name, verdict,
      confidence, reasons, now, now, now, none, true⟩
  (payload, updated ++ [payload])

/-- The current rows of a compare natural key. -/
def cmp_currents (rows : List CmpRow) (pair_id : String) (lext rext : Option String)
    (model_name : String) : List CmpRow :=
  rows.filter (cmp_key_current pair_id lext rext model_name)

end CompareStore

namespace Capture

/-! Embedding of the browser-engine fallback of `capture_url` in
`21_kpidrift_runthescan.py`.  One attempt is a function from the engine name
to either a capture result or a failure message (the message stands for
`f"{e}\n{traceback.format_exc()}"`). -/

def engines : List String := ["chromium", "webkit"]

/-- The `for engine in (...): try/except` loop with its `last_err`
accumulator, which is overwritten (not appended) on each failure. -/
def capture_go {α : Type} (attempt : String → Except String α) :
    List String → Option String → Except String α
  | [], last_err =>
    .error ("All capture attempts failed.\n" ++ last_err.getD "None")
  | e :: rest, _last_err =>
    match attempt e with
    | .ok r => .ok r
    | .error msg => capture_go attempt rest (some ("[" ++ e ++ "] " ++ msg))

/-- `capture_url`. -/
def capture_url {α : Type} (attempt : String → Except String α) : Except String α :=
  capture_go attempt engines none

end Capture

namespace Quality

/-- Scores reachable inside `score_widget` are integer multiples of `1/20`. -/
def Mul20 (q : ℚ) : Prop := ∃ m : ℤ, q = m / 20

theorem Mul20.add {a b : ℚ} (ha : Mul20 a) (hb : Mul20 b) : Mul20 (a + b) := by
  obtain ⟨m, hm⟩ := ha; obtain ⟨n, hn⟩ := hb
  exact ⟨m + n, by rw [hm, hn]; push_cast; ring⟩

theorem Mul20.ite {c : Prop} [Decidable c] {a b : ℚ} (ha : Mul20 a) (hb : Mul20 b) :
    Mul20 (if c then a else b) := by
  by_cases hc : c
  · simpa [hc] using ha
  · simpa [hc] using hb

theorem Mul20.of_int_div (m : ℤ) : Mul20 ((m : ℚ) / 20) := ⟨m, rfl⟩

theorem Mul20.num (m : ℤ) (q : ℚ) (h : q * 20 = (m : ℚ)) : Mul20 q :=
  ⟨m, by field_simp at h ⊢; linarith⟩

theorem Mul20.min {a b : ℚ} (ha : Mul20 a) (hb : Mul20 b) : Mul20 (min a b) := by
  rcases min_cases a b with ⟨h, _⟩ | ⟨h, _⟩ <;> rw [h] <;> assumption

theorem Mul20.max {a b : ℚ} (ha : Mul20 a) (hb : Mul20 b) : Mul20 (max a b) := by
  rcases max_cases a b with ⟨h, _⟩ | ⟨h, _⟩ <;> rw [h] <;> assumption

theorem step_size_mul20 (w h : Int) : Mul20 (step_size w h) :=
  Mul20.ite (Mul20.num (-14) _ (by norm_num)) (Mul20.num 4 _ (by norm_num))

theorem step_selector_mul20 (k : String) : Mul20 (step_selector k) :=
  Mul20.ite (Mul20.num 12 _ (by norm_num))
    (Mul20.ite (Mul20.num 6 _ (by norm_num)) (Mul20.num 3 _ (by norm_num)))

theorem step_title_mul20 (tp : Bool) : Mul20 (step_title tp) :=
  Mul20.ite (Mul20.num 7 _ (by norm_num)) (Mul20.num 0 _ (by norm_num))

theorem step_hard_ar_mul20 (ar : ℚ) : Mul20 (step_hard_ar ar) :=
  Mul20.ite (Mul20.num (-12) _ (by norm_num)) (Mul20.num 0 _ (by norm_num))

theorem step_soft_ar_mul20 (ar : ℚ) : Mul20 (step_soft_ar ar) :=
  Mul20.ite (Mul20.num (-7) _ (by norm_num)) (Mul20.num 0 _ (by norm_num))

theorem step_good_size_mul20 (k : String) (w h area : Int) (tp : Bool) :
    Mul20 (step_good_size k w h area tp) :=
  Mul20.ite (Mul20.num (-7) _ (by norm_num)) (Mul20.num 0 _ (by norm_num))

theorem step_rescue_hard_mul20 (k : String) (tp : Bool) (ar : ℚ) :
    Mul20 (step_rescue_hard k tp ar) :=
  Mul20.ite (Mul20.num (-5) _ (by norm_num)) (Mul20.num 0 _ (by norm_num))

theorem step_rescue_small_mul20 (k : String) (tp : Bool) (w h area : Int) :
    Mul20 (step_rescue_small k tp w h area) :=
  Mul20.ite (Mul20.num (-4) _ (by norm_num)) (Mul20.num 0 _ (by norm_num))

theorem raw_score_mul20 (k : String) (w h area : Int) (ar : ℚ) (tp : Bool) :
    Mul20 (raw_score k w h area ar tp) := by
  unfold raw_score
  exact ((((((step_size_mul20 w h).add (step_selector_mul20 k)).add
    (step_title_mul20 tp)).add (step_hard_ar_mul20 ar)).add
    (step_soft_ar_mul20 ar)).add (step_good_size_mul20 k w h area tp)).add
    (step_rescue_hard_mul20 k tp ar) |>.add (step_rescue_small_mul20 k tp w h area)

theorem clamp01_mul20 {q : ℚ} (hq : Mul20 q) : Mul20 (clamp01 q) :=
  Mul20.max (Mul20.num 0 _ (by norm_num)) (Mul20.min (Mul20.num 20 _ (by norm_num)) hq)

/-- `round3` is the identity on multiples of `1/20`. -/
theorem round3_of_mul20 {q : ℚ} (hq : Mul20 q) : round3 q = q := by
  obtain ⟨m, hm⟩ := hq
  subst hm
  unfold round3
  have h : (m : ℚ) / 20 * 1000 = ((50 * m : ℤ) : ℚ) := by push_cast; ring
  rw [h, round_intCast]
  push_cast
  ring

theorem clamp01_nonneg (q : ℚ) : 0 ≤ clamp01 q := le_max_left 0 _

theorem clamp01_le_one (q : ℚ) : clamp01 q ≤ 1 :=
  max_le (by norm_num) (min_le_left 1 q)

/-- C1 (amended): with the scoring arithmetic evaluated exactly, for every
selector kind, bounding box `(x, y, w, h)` with positive width and height,
and title-present boolean, `score_widget` returns a `quality_score` in the
closed interval `[0, 1]`, and the returned quality label is `"good"` if and
only if `quality_score ≥ QUALITY_THRESHOLD = 0.60`.  The program's IEEE
double evaluation departs from this equivalence exactly at rounding
boundaries of the 0.60 threshold: see
`FloatModel.score_widget_float_boundary`. -/
theorem score_widget_range_and_threshold (k : String) (x y w h : Int) (tp : Bool)
    (hw : 0 < w) (hh : 0 < h) :
    0 ≤ (score_widget k (x, y, w, h) tp).quality_score ∧
      (score_widget k (x, y, w, h) tp).quality_score ≤ 1 ∧
      ((score_widget k (x, y, w, h) tp).quality = "good" ↔
        QUALITY_THRESHOLD ≤ (score_widget k (x, y, w, h) tp).quality_score) := by
  have hm : Mul20 (clamp01 (raw_score k w h (max 1 w * max 1 h)
      ((w : ℚ) / ((max 1 h : Int) : ℚ)) tp)) :=
    clamp01_mul20 (raw_score_mul20 k w h _ _ tp)
  have h1 : (score_widget k (x, y, w, h) tp).quality_score =
      round3 (clamp01 (raw_score k w h (max 1 w * max 1 h)
        ((w : ℚ) / ((max 1 h : Int) : ℚ)) tp)) := rfl
  have h2 : (score_widget k (x, y, w, h) tp).quality =
      if QUALITY_THRESHOLD ≤ clamp01 (raw_score k w h (max 1 w * max 1 h)
        ((w : ℚ) / ((max 1 h : Int) : ℚ)) tp) then "good" else "junk" := rfl
  rw [h1, h2, round3_of_mul20 hm]
  refine ⟨clamp01_nonneg _, clamp01_le_one _, ?_⟩
  constructor
  · intro hq
    by_contra hlt
    rw [if_neg hlt] at hq
    exact absurd hq (by decide)
  · intro hge
    rw [if_pos hge]

/-- Concrete instantiation of C1 at a 300×200 container with a title. -/
theorem score_widget_range_and_threshold_witness :
    (0 : Int) < 300 ∧ (0 : Int) < 200 ∧
      (0 ≤ (score_widget "container" (0, 0, 300, 200) true).quality_score ∧
        (score_widget "container" (0, 0, 300, 200) true).quality_score ≤ 1 ∧
        ((score_widget "container" (0, 0, 300, 200) true).quality = "good" ↔
          QUALITY_THRESHOLD ≤ (score_widget "container" (0, 0, 300, 200) true).quality_score)) :=
  ⟨by decide, by decide,
    score_widget_range_and_threshold "container" 0 0 300 200 true (by decide) (by decide)⟩

/-- Membership in a conditional list comes from one of the branches. -/
theorem mem_ite_cases {c : Prop} [Decidable c] {a : String} {l1 l2 : List String}
    (h : a ∈ if c then l1 else l2) : a ∈ l1 ∨ a ∈ l2 := by
  split at h
  · exact Or.inl h
  · exact Or.inr h

/-- With a present title, `score_widget` never emits the `no_title` reason. -/
theorem reason_codes_no_title (k : String) (w h area : Int) (ar : ℚ) :
    "no_title" ∉ reason_codes k w h area ar true := by
  intro hmem
  unfold reason_codes at hmem
  rw [if_pos rfl] at hmem
  simp only [List.mem_append] at hmem
  rcases hmem with (((((((h1 | h2) | h3) | h4) | h5) | h6) | h7) | h8)
  · rcases mem_ite_cases h1 with h | h <;> revert h <;> decide
  · rcases mem_ite_cases h2 with h | h
    · exact absurd h (by decide)
    · rcases mem_ite_cases h with h | h <;> revert h <;> decide
  · exact absurd h3 (by decide)
  · rcases mem_ite_cases h4 with h | h <;> revert h <;> decide
  · rcases mem_ite_cases h5 with h | h <;> revert h <;> decide
  · rcases mem_ite_cases h6 with h | h <;> revert h <;> decide
  · rcases mem_ite_cases h7 with h | h <;> revert h <;> decide
  · rcases mem_ite_cases h8 with h | h <;> revert h <;> decide

end Quality

namespace FloatModel

set_option maxRecDepth 100000 in
/-- C1 counterexample: under the program's IEEE-754 binary64 arithmetic, at
selector kind "container", bounding box (0, 0, 300, 100) (positive width and
height) with a title present, the accumulated score is
`0.2 + 0.6 + 0.35 - 0.35 - 0.2 = 0.5999999999999999 < 0.60`, so the label is
"junk" — yet the returned `round(score, 3)` is exactly the double `0.6`, so
`quality_score ≥ 0.60` holds; the claimed equivalence
`quality = "good" ⇔ quality_score ≥ 0.60` is false of the program at this
input. -/
theorem score_widget_float_boundary :
    (float_score_widget "container" (0, 0, 300, 100) true).quality = "junk" ∧
      (float_score_widget "container" (0, 0, 300, 100) true).quality_score = f06 ∧
      fcmp_le f06 (float_score_widget "container" (0, 0, 300, 100) true).quality_score =
        true := by
  decide

end FloatModel

namespace PowerBI

/-- The dedupe scan never keeps a candidate that triggers a drop rule against
an earlier kept one. -/
theorem dedupe_loop_pairwise (rest : List Cand) :
    ∀ kept : List Cand, kept.Pairwise (fun k c => drops k c = false) →
      (dedupe_loop kept rest).Pairwise (fun k c => drops k c = false) := by
  induction rest with
  | nil => intro kept hk; simpa [dedupe_loop] using hk
  | cons c rest ih =>
    intro kept hk
    rw [dedupe_loop]
    by_cases hany : kept.any (fun k => drops k c) = true
    · rw [if_pos hany]; exact ih kept hk
    · rw [if_neg hany]
      refine ih (kept ++ [c]) ?_
      rw [List.pairwise_append]
      refine ⟨hk, List.pairwise_singleton _ _, ?_⟩
      intro a ha b hb
      rw [List.mem_singleton] at hb
      subst hb
      exact Bool.eq_false_iff.mpr (List.any_eq_false.mp (Bool.not_eq_true _ ▸ hany) a ha)

theorem drops_eq_false_iff (k c : Cand) :
    drops k c = false ↔
      ¬(65/100 < iou_local c.box k.box ∧ k.kind = "container" ∧
          (c.kind = "primitive" ∨ c.kind = "role")) ∧
        ¬(72/100 < iou_local c.box k.box ∧ k.kind = c.kind) := by
  rw [Bool.eq_false_iff]
  simp only [ne_eq, drops, Bool.or_eq_true, Bool.and_eq_true, decide_eq_true_eq,
    beq_iff_eq]
  tauto

/-- C4: the deduplicator walks candidates in (top, left) scan order and drops
a candidate whose IoU with an already-kept box exceeds the applicable
threshold — 0.72 against a kept box of the same selector kind, 0.65 when a
primitive/role candidate overlaps a kept container — so any two kept boxes
respect both thresholds; and on the two container boxes (10,10,300,200) and
(15,12,295,195), in either input order, exactly the earlier box in scan order
is kept. -/
theorem dedupe_thresholds_and_scenario_A :
    (∀ cands : List Cand, (dedupe cands).Pairwise (fun k c =>
        (k.kind = c.kind → iou_local c.box k.box ≤ 72/100) ∧
        (k.kind = "container" ∧ (c.kind = "primitive" ∨ c.kind = "role") →
          iou_local c.box k.box ≤ 65/100))) ∧
      dedupe [⟨".visualContainer, .visualContainerHost, .modernVisualOverlay",
            (10, 10, 300, 200), "container"⟩,
          ⟨".visualContainer, .visualContainerHost, .modernVisualOverlay",
            (15, 12, 295, 195), "container"⟩] =
        [⟨".visualContainer, .visualContainerHost, .modernVisualOverlay",
          (10, 10, 300, 200), "container"⟩] ∧
      dedupe [⟨".visualContainer, .visualContainerHost, .modernVisualOverlay",
            (15, 12, 295, 195), "container"⟩,
          ⟨".visualContainer, .visualContainerHost, .modernVisualOverlay",
            (10, 10, 300, 200), "container"⟩] =
        [⟨".visualContainer, .visualContainerHost, .modernVisualOverlay",
          (10, 10, 300, 200), "container"⟩] := by
  have hd : ∀ s s2 : String,
      drops ⟨s, (10, 10, 300, 200), "container"⟩ ⟨s2, (15, 12, 295, 195), "container"⟩ =
        true := by
    intro s s2
    norm_num [drops, iou_local]
  refine ⟨?_, ?_, ?_⟩
  · intro cands
    refine (dedupe_loop_pairwise _ [] List.Pairwise.nil).imp ?_
    intro a b h
    rw [drops_eq_false_iff] at h
    obtain ⟨h1, h2⟩ := h
    constructor
    · intro hkind
      by_contra hlt
      exact h2 ⟨not_le.mp hlt, hkind⟩
    · rintro ⟨hk, hc⟩
      by_contra hlt
      exact h1 ⟨not_le.mp hlt, hk, hc⟩
  · have hsort : List.insertionSort scan_le
        [(⟨".visualContainer, .visualContainerHost, .modernVisualOverlay",
            (10, 10, 300, 200), "container"⟩ : Cand),
          ⟨".visualContainer, .visualContainerHost, .modernVisualOverlay",
            (15, 12, 295, 195), "container"⟩] =
        [⟨".visualContainer, .visualContainerHost, .modernVisualOverlay",
            (10, 10, 300, 200), "container"⟩,
          ⟨".visualContainer, .visualContainerHost, .modernVisualOverlay",
            (15, 12, 295, 195), "container"⟩] := by
      norm_num [List.insertionSort, List.orderedInsert, scan_le]
    rw [dedupe, hsort]
    simp [dedupe_loop, hd]
  · have hsort : List.insertionSort scan_le
        [(⟨".visualContainer, .visualContainerHost, .modernVisualOverlay",
            (15, 12, 295, 195), "container"⟩ : Cand),
          ⟨".visualContainer, .visualContainerHost, .modernVisualOverlay",
            (10, 10, 300, 200), "container"⟩] =
        [⟨".visualContainer, .visualContainerHost, .modernVisualOverlay",
            (10, 10, 300, 200), "container"⟩,
          ⟨".visualContainer, .visualContainerHost, .modernVisualOverlay",
            (15, 12, 295, 195), "container"⟩] := by
      norm_num [List.insertionSort, List.orderedInsert, scan_le]
    rw [dedupe, hsort]
    simp [dedupe_loop, hd]

/-- Concrete instantiation of C4: the Scenario A pair in source order. -/
theorem dedupe_thresholds_and_scenario_A_witness :
    dedupe [⟨".visualContainer, .visualContainerHost, .modernVisualOverlay",
          (10, 10, 300, 200), "container"⟩,
        ⟨".visualContainer, .visualContainerHost, .modernVisualOverlay",
          (15, 12, 295, 195), "container"⟩] =
      [⟨".visualContainer, .visualContainerHost, .modernVisualOverlay",
        (10, 10, 300, 200), "container"⟩] :=
  dedupe_thresholds_and_scenario_A.2.1

/-- Every member of the dedupe output came from the input list. -/
theorem dedupe_loop_subset (rest : List Cand) :
    ∀ kept (x : Cand), x ∈ dedupe_loop kept rest → x ∈ kept ∨ x ∈ rest := by
  induction rest with
  | nil => intro kept x hx; exact Or.inl (by simpa [dedupe_loop] using hx)
  | cons c rest ih =>
    intro kept x hx
    rw [dedupe_loop] at hx
    by_cases hany : kept.any (fun k => drops k c) = true
    · rw [if_pos hany] at hx
      rcases ih kept x hx with h | h
      · exact Or.inl h
      · exact Or.inr (List.mem_cons_of_mem _ h)
    · rw [if_neg hany] at hx
      rcases ih (kept ++ [c]) x hx with h | h
      · rcases List.mem_append.mp h with h | h
        · exact Or.inl h
        · rcases List.mem_singleton.mp h with rfl
          exact Or.inr (List.mem_cons_self _ _)
      · exact Or.inr (List.mem_cons_of_mem _ h)

theorem mem_dedupe_imp_mem (cands : List Cand) (x : Cand) (hx : x ∈ dedupe cands) :
    x ∈ cands := by
  rcases dedupe_loop_subset _ [] x hx with h | h
  · exact absurd h (List.not_mem_nil x)
  · exact (List.perm_insertionSort scan_le cands).mem_iff.mp h

/-- C9: every candidate collected by detection, and hence every widget that
survives the dedupe pass, has raw (pre-padding) width ≥ MIN_W = 150 and
height ≥ MIN_H = 100; smaller raw boxes are discarded during detection. -/
theorem detection_min_size (dom : String → List (Option Box)) :
    (∀ c ∈ collect_candidates dom,
        Quality.MIN_W ≤ c.box.2.2.1 ∧ Quality.MIN_H ≤ c.box.2.2.2) ∧
      (∀ c ∈ dedupe (collect_candidates dom),
        Quality.MIN_W ≤ c.box.2.2.1 ∧ Quality.MIN_H ≤ c.box.2.2.2) := by
  have hcollect : ∀ c ∈ collect_candidates dom,
      Quality.MIN_W ≤ c.box.2.2.1 ∧ Quality.MIN_H ≤ c.box.2.2.2 := by
    intro c hc
    rw [collect_candidates, List.mem_flatMap] at hc
    obtain ⟨sel, _hsel, hmem⟩ := hc
    rw [List.mem_filterMap] at hmem
    obtain ⟨obb, _hin, hsome⟩ := hmem
    match obb with
    | none => simp at hsome
    | some (x, y, w, h) =>
      dsimp only at hsome
      by_cases hcond : w < Quality.MIN_W ∨ h < Quality.MIN_H
      · rw [if_pos hcond] at hsome
        exact absurd hsome (by simp)
      · rw [if_neg hcond] at hsome
        push_neg at hcond
        obtain ⟨rfl⟩ := Option.some_injective _ hsome
        exact ⟨hcond.1, hcond.2⟩
  exact ⟨hcollect, fun c hc => hcollect c (mem_dedupe_imp_mem _ c hc)⟩

/-- Concrete instantiation of C9: a 200×150 element is collected and passes
the size gate. -/
theorem detection_min_size_witness :
    ((⟨".visualContainer, .visualContainerHost, .modernVisualOverlay",
        (0, 0, 200, 150), "container"⟩ : Cand) ∈
        collect_candidates (fun _ => [some (0, 0, 200, 150)])) ∧
      Quality.MIN_W ≤
        ((⟨".visualContainer, .visualContainerHost, .modernVisualOverlay",
          (0, 0, 200, 150), "container"⟩ : Cand)).box.2.2.1 ∧
      Quality.MIN_H ≤
        ((⟨".visualContainer, .visualContainerHost, .modernVisualOverlay",
          (0, 0, 200, 150), "container"⟩ : Cand)).box.2.2.2 := by
  have hmem : (⟨".visualContainer, .visualContainerHost, .modernVisualOverlay",
      (0, 0, 200, 150), "container"⟩ : Cand) ∈
      collect_candidates (fun _ => [some (0, 0, 200, 150)]) := by
    have hc : collect_candidates (fun _ => [some (0, 0, 200, 150)]) =
        [⟨".visualContainer, .visualContainerHost, .modernVisualOverlay",
            (0, 0, 200, 150), "container"⟩,
          ⟨"[role=\x27figure\x27], [role=\x27img\x27]", (0, 0, 200, 150), "role"⟩,
          ⟨"svg, canvas", (0, 0, 200, 150), "primitive"⟩] := rfl
    rw [hc]
    exact List.mem_cons_self _ _
  exact ⟨hmem,
    (detection_min_size (fun _ => [some (0, 0, 200, 150)])).1 _ hmem⟩

theorem dropWhile_idem (p : Char → Bool) (l : List Char) :
    (l.dropWhile p).dropWhile p = l.dropWhile p := by
  induction l with
  | nil => rfl
  | cons a t ih =>
    rw [List.dropWhile_cons]
    by_cases h : p a
    · rw [if_pos h]; exact ih
    · rw [if_neg h, List.dropWhile_cons, if_neg h]

theorem dropWhile_length_le (p : Char → Bool) (l : List Char) :
    (l.dropWhile p).length ≤ l.length := by
  induction l with
  | nil => exact le_refl _
  | cons a t ih =>
    rw [List.dropWhile_cons]
    by_cases h : p a
    · rw [if_pos h, List.length_cons]; omega
    · rw [if_neg h]

/-- Python `strip` is idempotent. -/
theorem strip_idem (l : List Char) : strip (strip l) = strip l := by
  set p := Char.isWhitespace with hp
  set u := l.dropWhile p with hu
  have hfront_u : u.dropWhile p = u := by rw [hu]; exact dropWhile_idem p l
  set v := ((u.reverse.dropWhile p).reverse : List Char) with hv
  have hvrev : v.reverse = u.reverse.dropWhile p := by rw [hv, List.reverse_reverse]
  have hpre : v <+: u := by
    rw [← List.reverse_suffix, hvrev]
    exact List.dropWhile_suffix p
  have hfront_v : v.dropWhile p = v := by
    match hveq : v with
    | [] => rfl
    | a :: t =>
      obtain ⟨s, hs⟩ := hpre
      have hu2 := hfront_u
      rw [← hs, List.cons_append] at hu2
      rw [List.dropWhile_cons] at hu2
      by_cases hpa : p a = true
      · rw [if_pos hpa] at hu2
        have hlen := congrArg List.length hu2
        have hle := dropWhile_length_le p (t ++ s)
        simp only [List.length_cons] at hlen
        omega
      · rw [List.dropWhile_cons, if_neg hpa]
  show strip v = v
  unfold strip
  rw [hfront_v, hvrev, dropWhile_idem, ← hvrev, List.reverse_reverse]

/-- Every label `_find_title_near` returns is a stripped non-empty text. -/
theorem find_title_near_spec (hs : List (Option Box × List Char)) (box : Box) :
    find_title_near hs box = none ∨
      ∃ t, find_title_near hs box = some (strip t) ∧ strip t ≠ [] := by
  obtain ⟨bx, by_, bw, bh⟩ := box
  show ((hs.take 20).foldl (title_step bx by_ bw) (none, 99999)).1 = none ∨ _
  have main : ∀ (l : List (Option Box × List Char)) (acc : Option (List Char) × Int),
      (acc.1 = none ∨ ∃ t, acc.1 = some (strip t) ∧ strip t ≠ []) →
      ((l.foldl (title_step bx by_ bw) acc).1 = none ∨
        ∃ t, (l.foldl (title_step bx by_ bw) acc).1 = some (strip t) ∧ strip t ≠ []) := by
    intro l
    induction l with
    | nil => intro acc hacc; exact hacc
    | cons hd rest ih =>
      intro acc hacc
      rw [List.foldl_cons]
      refine ih _ ?_
      obtain ⟨obb, txt⟩ := hd
      match obb with
      | none => exact hacc
      | some (tx, ty, tw, th) =>
        dsimp only [title_step]
        split
        · split
          · split
            · rename_i hne
              exact Or.inr ⟨txt, rfl, hne⟩
            · exact hacc
          · exact hacc
        · exact hacc
  exact main _ _ (Or.inl rfl)

/-- C10: in the Power BI extraction loop the title passed to the scorer
defaults to the non-empty string "Widget" when no nearby heading is found, so
`title_present` is true at every `score_widget` call; hence the title bonus
(+0.35) is always applied and the `no_title` reason code is unreachable. -/
theorem title_always_present_no_title_unreachable
    (hs : List (Option Box × List Char)) (box : Box) (kind : String) (w h : Int) :
    title_present_flag hs box = true ∧
      Quality.step_title (title_present_flag hs box) = 35/100 ∧
      "no_title" ∉ (widget_quality kind w h (title_present_flag hs box)).quality_reason := by
  have hflag : title_present_flag hs box = true := by
    unfold title_present_flag title_for
    rcases find_title_near_spec hs box with hn | ⟨t, ht, hne⟩
    · rw [hn]
      decide
    · rw [ht]
      simp only [py_or]
      simp [hne, strip_idem]
  refine ⟨hflag, by rw [hflag]; rfl, ?_⟩
  rw [hflag]
  have hq : (widget_quality kind w h true).quality_reason =
      Quality.reason_codes kind (padded_wh w h).1 (padded_wh w h).2
        (max 1 (padded_wh w h).1 * max 1 (padded_wh w h).2)
        (((padded_wh w h).1 : ℚ) / ((max 1 (padded_wh w h).2 : Int) : ℚ)) true := rfl
  rw [hq]
  exact Quality.reason_codes_no_title _ _ _ _ _

/-- Concrete instantiation of C10: with no headings at all, the default
"Widget" title still makes `title_present` true. -/
theorem title_always_present_witness :
    title_present_flag [] (0, 0, 300, 200) = true :=
  (title_always_present_no_title_unreachable [] (0, 0, 300, 200) "container" 300 200).1

end PowerBI

namespace Persist

/-- C2: `upsert_screengrab` is idempotent on content: a second call with
byte-identical full-image bytes (whatever the other arguments) creates no
second row and returns the same screengrab row, recovering the uniqueness
conflict on the content hash locally instead of surfacing a failure (the
embedding is total: every call returns a row). -/
theorem upsert_screengrab_idempotent (hash : List Nat → String)
    (url_host : String → Option String) (st : SgStore)
    (sid1 url1 plat1 sid2 url2 plat2 : String) (bytes : List Nat)
    (b1 p1 b2 p2 : String) (u1 u2 : Option String) (n1 n2 : Nat) :
    (upsert_screengrab hash url_host
        (upsert_screengrab hash url_host st sid1 url1 plat1 bytes b1 p1 u1 n1).2
        sid2 url2 plat2 bytes b2 p2 u2 n2).1 =
      (upsert_screengrab hash url_host st sid1 url1 plat1 bytes b1 p1 u1 n1).1 ∧
      (upsert_screengrab hash url_host
        (upsert_screengrab hash url_host st sid1 url1 plat1 bytes b1 p1 u1 n1).2
        sid2 url2 plat2 bytes b2 p2 u2 n2).2.rows =
      (upsert_screengrab hash url_host st sid1 url1 plat1 bytes b1 p1 u1 n1).2.rows := by
  unfold upsert_screengrab
  dsimp only
  cases hfind : st.rows.find? (fun r => r.screengrab_hashvalue == hash bytes) with
  | some r0 =>
    dsimp only
    rw [hfind]
    exact ⟨rfl, rfl⟩
  | none =>
    dsimp only
    rw [List.find?_append, hfind]
    simp

end Persist

namespace Pairing

theorem length_le_one_eq_singleton {l : List PairRow} {a : PairRow}
    (hlen : l.length ≤ 1) (ha : a ∈ l) : l = [a] := by
  match l, ha with
  | [x], ha =>
    rcases List.mem_singleton.mp ha with rfl
    rfl
  | x :: y :: t, _ => simp [List.length_cons] at hlen

theorem currents_append (l1 l2 : List PairRow) (wl wr : String) :
    currents (l1 ++ l2) wl wr = currents l1 wl wr ++ currents l2 wl wr :=
  List.filter_append l1 l2

theorem currents_singleton (r : PairRow) (wl wr : String) :
    currents [r] wl wr = if pair_key_current wl wr r then [r] else [] := by
  unfold currents
  rw [List.filter_cons]
  split <;> rfl

theorem end_date_if_pair_id (pid now : Nat) (r : PairRow) :
    (end_date_if pid now r).pair_id = r.pair_id := by
  unfold end_date_if
  split <;> rfl

theorem key_current_false_of_not_current (wl wr : String) (r : PairRow)
    (h : r.curr_rec_ind = false) : pair_key_current wl wr r = false := by
  simp [pair_key_current, h]

theorem currents_map_end_date (rows : List PairRow) (pid now : Nat) (wl wr : String) :
    currents (rows.map (end_date_if pid now)) wl wr =
      (currents rows wl wr).filter (fun r => !(r.pair_id == pid)) := by
  induction rows with
  | nil => rfl
  | cons r t ih =>
    rw [List.map_cons]
    unfold currents at ih ⊢
    by_cases hpid : r.pair_id = pid
    · have hed : end_date_if pid now r =
          { r with curr_rec_ind := false, rec_eff_end_dt := some now } := by
        unfold end_date_if
        rw [if_pos hpid]
      by_cases hk : pair_key_current wl wr r = true <;>
        simp [List.filter_cons, hed, hk, hpid, ih, key_current_false_of_not_current]
    · have hed : end_date_if pid now r = r := by
        unfold end_date_if
        rw [if_neg hpid]
      by_cases hk : pair_key_current wl wr r = true <;>
        simp [List.filter_cons, hed, hk, hpid, ih]

theorem payload_key (nid : Nat) (wl wr wl2 wr2 : String) (ls rs : Option String)
    (pn : Option Int) (now : Nat) :
    pair_key_current wl2 wr2 (⟨nid, wl, wr, ls, rs, pn, now, now, none, true, "active"⟩ :
      PairRow) = ((wl == wl2) && (wr == wr2)) := by
  simp [pair_key_current]

/-- One `scd2_upsert_pair` call preserves the SCD-2 invariant and counter
freshness. -/
theorem scd2_upsert_pair_wf (st : PairStore) (now : ℕ) (wl wr : String)
    (ls rs : Option String) (pn : Option Int) (hwf : pair_wf st) :
    pair_wf (scd2_upsert_pair st now wl wr ls rs pn).2 := by
  obtain ⟨hone, hbound⟩ := hwf
  unfold scd2_upsert_pair
  cases hfind : st.rows.find? (pair_key_current wl wr) with
  | none =>
    dsimp only
    refine ⟨?_, ?_⟩
    · intro wl2 wr2
      unfold currents
      rw [List.filter_append]
      by_cases hkey : pair_key_current wl2 wr2
          (⟨st.nextId, wl, wr, ls, rs, pn, now, now, none, true, "active"⟩ : PairRow) = true
      · rw [payload_key] at hkey
        simp only [Bool.and_eq_true, beq_iff_eq] at hkey
        obtain ⟨h1, h2⟩ := hkey
        subst h1
        subst h2
        have hnil : List.filter (pair_key_current wl wr) st.rows = [] := by
          rw [List.filter_eq_nil_iff]
          intro a ha
          exact List.find?_eq_none.mp hfind a ha
        rw [hnil, List.nil_append]
        exact le_trans (List.length_filter_le _ _) (by simp)
      · have hnil2 : List.filter (pair_key_current wl2 wr2)
            [(⟨st.nextId, wl, wr, ls, rs, pn, now, now, none, true, "active"⟩ : PairRow)] =
            [] := by
          rw [List.filter_cons, if_neg hkey]
          rfl
        rw [hnil2, List.append_nil]
        exact hone wl2 wr2
    · intro r hr
      rcases List.mem_append.mp hr with h | h
      · exact lt_trans (hbound r h) (Nat.lt_succ_self _)
      · rcases List.mem_singleton.mp h with rfl
        exact Nat.lt_succ_self _
  | some row =>
    dsimp only
    by_cases hsame : row.left_session_id = ls ∧ row.right_session_id = rs ∧
        row.pair_number = pn
    · rw [if_pos hsame]
      exact ⟨hone, hbound⟩
    · rw [if_neg hsame]
      dsimp only
      refine ⟨?_, ?_⟩
      · intro wl2 wr2
        rw [show currents (st.rows.map (end_date_if row.pair_id now) ++
            [⟨st.nextId, wl, wr, ls, rs, pn, now, now, none, true, "active"⟩]) wl2 wr2 =
          currents (st.rows.map (end_date_if row.pair_id now)) wl2 wr2 ++
            currents [⟨st.nextId, wl, wr, ls, rs, pn, now, now, none, true, "active"⟩] wl2 wr2
          from currents_append _ _ _ _]
        rw [currents_map_end_date, currents_singleton]
        by_cases hkey : pair_key_current wl2 wr2
            (⟨st.nextId, wl, wr, ls, rs, pn, now, now, none, true, "active"⟩ : PairRow) = true
        · rw [if_pos hkey]
          rw [payload_key] at hkey
          simp only [Bool.and_eq_true, beq_iff_eq] at hkey
          obtain ⟨h1, h2⟩ := hkey
          subst h1
          subst h2
          have hmem : row ∈ currents st.rows wl wr :=
            List.mem_filter.mpr ⟨List.mem_of_find?_eq_some hfind, List.find?_some hfind⟩
          rw [length_le_one_eq_singleton (hone wl wr) hmem]
          simp
        · rw [if_neg hkey, List.append_nil]
          exact le_trans (List.length_filter_le _ _) (hone wl2 wr2)
      · intro r hr
        rcases List.mem_append.mp hr with h | h
        · obtain ⟨r0, hr0, rfl⟩ := List.mem_map.mp h
          rw [end_date_if_pair_id]
          exact lt_trans (hbound r0 hr0) (Nat.lt_succ_self _)
        · rcases List.mem_singleton.mp h with rfl
          exact Nat.lt_succ_self _

theorem run_pair_ops_wf (ops : List PairOp) : pair_wf (run_pair_ops ops) := by
  unfold run_pair_ops
  have main : ∀ (l : List PairOp) (st : PairStore), pair_wf st →
      pair_wf (l.foldl (fun st op =>
        (scd2_upsert_pair st op.now op.widget_left op.widget_right op.left_sess
          op.right_sess op.pair_number).2) st) := by
    intro l
    induction l with
    | nil => intro st h; exact h
    | cons op rest ih =>
      intro st h
      rw [List.foldl_cons]
      exact ih _ (scd2_upsert_pair_wf _ _ _ _ _ _ _ h)
  refine main ops pair_store_empty ⟨?_, ?_⟩
  · intro wl wr
    simp [currents, pair_store_empty]
  · intro r hr
    simp [pair_store_empty] at hr

/-- C3: `scd2_upsert_pair` is an SCD-2 state machine per natural key
(widget id left, widget id right): an identical payload for the existing
current row is a no-op returning "unchanged" with the state untouched; a
changed payload end-dates the existing current row (end timestamp set,
current flag cleared) and inserts a new current row, which is then the only
current row of the key; and after any sequence of submissions from an empty
table, at most one row per natural key is current. -/
theorem scd2_pair_state_machine :
    (∀ (st : PairStore) (now : ℕ) (wl wr : String) (ls rs : Option String)
        (pn : Option Int) (row : PairRow),
      st.rows.find? (pair_key_current wl wr) = some row →
      ((row.left_session_id = ls ∧ row.right_session_id = rs ∧ row.pair_number = pn →
        scd2_upsert_pair st now wl wr ls rs pn = (("unchanged", some row.pair_id), st)) ∧
      (pair_wf st →
        ¬(row.left_session_id = ls ∧ row.right_session_id = rs ∧ row.pair_number = pn) →
        (scd2_upsert_pair st now wl wr ls rs pn).1.1 = "inserted" ∧
        (∀ q ∈ (scd2_upsert_pair st now wl wr ls rs pn).2.rows,
          q.pair_id = row.pair_id →
          q.curr_rec_ind = false ∧ q.rec_eff_end_dt = some now) ∧
        currents (scd2_upsert_pair st now wl wr ls rs pn).2.rows wl wr =
          [⟨st.nextId, wl, wr, ls, rs, pn, now, now, none, true, "active"⟩]))) ∧
    (∀ ops : List PairOp, at_most_one_current (run_pair_ops ops).rows) := by
  constructor
  · intro st now wl wr ls rs pn row hfind
    constructor
    · intro hsame
      unfold scd2_upsert_pair
      rw [hfind]
      dsimp only
      rw [if_pos hsame]
    · intro hwf hdiff
      unfold scd2_upsert_pair
      rw [hfind]
      dsimp only
      rw [if_neg hdiff]
      dsimp only
      refine ⟨rfl, ?_, ?_⟩
      · intro q hq hqid
        rcases List.mem_append.mp hq with h | h
        · obtain ⟨q0, hq0, rfl⟩ := List.mem_map.mp h
          rw [end_date_if_pair_id] at hqid
          unfold end_date_if
          rw [if_pos hqid]
          exact ⟨rfl, rfl⟩
        · rcases List.mem_singleton.mp h with rfl
          exfalso
          have hlt := hwf.2 row (List.mem_of_find?_eq_some hfind)
          dsimp only at hqid
          omega
      · rw [show currents (st.rows.map (end_date_if row.pair_id now) ++
            [⟨st.nextId, wl, wr, ls, rs, pn, now, now, none, true, "active"⟩]) wl wr =
          currents (st.rows.map (end_date_if row.pair_id now)) wl wr ++
            currents [⟨st.nextId, wl, wr, ls, rs, pn, now, now, none, true, "active"⟩] wl wr
          from currents_append _ _ _ _]
        rw [currents_map_end_date, currents_singleton]
        have hmem : row ∈ currents st.rows wl wr :=
          List.mem_filter.mpr ⟨List.mem_of_find?_eq_some hfind, List.find?_some hfind⟩
        rw [length_le_one_eq_singleton (hwf.1 wl wr) hmem]
        rw [payload_key]
        simp
  · intro ops
    exact (run_pair_ops_wf ops).1

/-- Concrete instantiation of C3: resubmitting the identical payload of the
one current row is a no-op, and a changed pair number triggers an insert. -/
theorem scd2_pair_state_machine_witness :
    scd2_upsert_pair
        ⟨[⟨0, "L", "R", some "a", some "b", some 1, 5, 5, none, true, "active"⟩], 1⟩
        7 "L" "R" (some "a") (some "b") (some 1) =
      (("unchanged", some 0),
        ⟨[⟨0, "L", "R", some "a", some "b", some 1, 5, 5, none, true, "active"⟩], 1⟩) ∧
    (scd2_upsert_pair
        ⟨[⟨0, "L", "R", some "a", some "b", some 1, 5, 5, none, true, "active"⟩], 1⟩
        9 "L" "R" (some "a") (some "b") (some 2)).1.1 = "inserted" := by
  have hfind : (⟨[⟨0, "L", "R", some "a", some "b", some 1, 5, 5, none, true,
      "active"⟩], 1⟩ : PairStore).rows.find?
      (pair_key_current "L" "R") =
      some ⟨0, "L", "R", some "a", some "b", some 1, 5, 5, none, true, "active"⟩ := rfl
  constructor
  · exact (scd2_pair_state_machine.1 _ 7 "L" "R" (some "a") (some "b") (some 1) _
      hfind).1 ⟨rfl, rfl, rfl⟩
  · refine ((scd2_pair_state_machine.1 _ 9 "L" "R" (some "a") (some "b") (some 2) _
      hfind).2 ⟨?_, ?_⟩ ?_).1
    · intro wl wr
      exact List.length_filter_le _ _
    · intro r hr
      rcases List.mem_singleton.mp hr with rfl
      exact Nat.lt_succ_self 0
    · rintro ⟨-, -, hpn⟩
      exact absurd hpn (by decide)

/-- The batch loop appends one saved row per 1:1 pair number and one issue
per non-1:1 pair number, independently per number. -/
theorem batch_fold_characterization (now : ℕ) (left right : List (String × Int))
    (ls rs : Option String) :
    ∀ (nums : List Int) (acc : BatchAcc),
      ((nums.foldl (batch_step now left right ls rs) acc).saved.map (fun t => t.1) =
        acc.saved.map (fun t => t.1) ++ nums.filter (one_one left right)) ∧
      ((nums.foldl (batch_step now left right ls rs) acc).issues =
        acc.issues ++ nums.filter (fun k => !(one_one left right k))) := by
  intro nums
  induction nums with
  | nil => intro acc; simp
  | cons k rest ih =>
    intro acc
    rw [List.foldl_cons, List.filter_cons, List.filter_cons]
    match hL : side_ids left k with
    | [] =>
      have hone : one_one left right k = false := by simp [one_one, hL]
      have hstep : batch_step now left right ls rs acc k =
          ⟨acc.store, acc.saved, acc.issues ++ [k]⟩ := by
        unfold batch_step
        rw [hL]
      rw [hstep] at *
      obtain ⟨ih1, ih2⟩ := ih ⟨acc.store, acc.saved, acc.issues ++ [k]⟩
      refine ⟨?_, ?_⟩
      · rw [ih1, if_neg (by simp [hone])]
      · rw [ih2, if_pos (by simp [hone]), List.append_assoc]
        rfl
    | l :: l2 :: L =>
      have hone : one_one left right k = false := by simp [one_one, hL]
      have hstep : batch_step now left right ls rs acc k =
          ⟨acc.store, acc.saved, acc.issues ++ [k]⟩ := by
        unfold batch_step
        rw [hL]
      rw [hstep] at *
      obtain ⟨ih1, ih2⟩ := ih ⟨acc.store, acc.saved, acc.issues ++ [k]⟩
      refine ⟨?_, ?_⟩
      · rw [ih1, if_neg (by simp [hone])]
      · rw [ih2, if_pos (by simp [hone]), List.append_assoc]
        rfl
    | [l] =>
      match hR : side_ids right k with
      | [] =>
        have hone : one_one left right k = false := by simp [one_one, hR]
        have hstep : batch_step now left right ls rs acc k =
            ⟨acc.store, acc.saved, acc.issues ++ [k]⟩ := by
          unfold batch_step
          rw [hL, hR]
        rw [hstep] at *
        obtain ⟨ih1, ih2⟩ := ih ⟨acc.store, acc.saved, acc.issues ++ [k]⟩
        refine ⟨?_, ?_⟩
        · rw [ih1, if_neg (by simp [hone])]
        · rw [ih2, if_pos (by simp [hone]), List.append_assoc]
          rfl
      | r :: r2 :: R =>
        have hone : one_one left right k = false := by simp [one_one, hR]
        have hstep : batch_step now left right ls rs acc k =
            ⟨acc.store, acc.saved, acc.issues ++ [k]⟩ := by
          unfold batch_step
          rw [hL, hR]
        rw [hstep] at *
        obtain ⟨ih1, ih2⟩ := ih ⟨acc.store, acc.saved, acc.issues ++ [k]⟩
        refine ⟨?_, ?_⟩
        · rw [ih1, if_neg (by simp [hone])]
        · rw [ih2, if_pos (by simp [hone]), List.append_assoc]
          rfl
      | [r] =>
        have hone : one_one left right k = true := by simp [one_one, hL, hR]
        have hstep : batch_step now left right ls rs acc k =
            ⟨(scd2_upsert_pair acc.store now l r ls rs (some k)).2,
              acc.saved ++ [(k, l, r, (scd2_upsert_pair acc.store now l r ls rs
                (some k)).1.1)], acc.issues⟩ := by
          unfold batch_step
          rw [hL, hR]
        rw [hstep] at *
        obtain ⟨ih1, ih2⟩ := ih ⟨(scd2_upsert_pair acc.store now l r ls rs (some k)).2,
          acc.saved ++ [(k, l, r, (scd2_upsert_pair acc.store now l r ls rs
            (some k)).1.1)], acc.issues⟩
        refine ⟨?_, ?_⟩
        · rw [ih1, if_pos (by simp [hone])]
          simp [List.append_assoc]
        · rw [ih2, if_neg (by simp [hone])]

/-- C8: in a batch pairing submission a pair number is persisted iff exactly
one widget carries it on the left and exactly one on the right; every other
(zero-or-multiple) number is reported as an issue; and each number is handled
independently — the saved numbers are exactly the 1:1 numbers of the batch
and the issue numbers exactly the rest, in order. -/
theorem batch_pairing_one_one (st : PairStore) (now : ℕ)
    (left right : List (String × Int)) (ls rs : Option String) :
    ((persist_batch st now left right ls rs).saved.map (fun t => t.1) =
      (batch_nums left right).filter (one_one left right)) ∧
    ((persist_batch st now left right ls rs).issues =
      (batch_nums left right).filter (fun k => !(one_one left right k))) := by
  unfold persist_batch
  have h := batch_fold_characterization now left right ls rs (batch_nums left right)
    ⟨st, [], []⟩
  simpa using h

end Pairing

namespace Compare

theorem sum_sq_sub (a : ℚ) (t : List ℚ) :
    (t.map (fun x => (x - a) ^ 2)).sum =
      (t.map (fun x => x ^ 2)).sum - 2 * a * t.sum + t.length * a ^ 2 := by
  induction t with
  | nil => simp
  | cons b t ih =>
    simp only [List.map_cons, List.sum_cons, ih, List.length_cons]
    push_cast
    ring

theorem var_cons (a : ℚ) (t : List ℚ) :
    (((a :: t).length : ℚ) * ((a :: t).map (fun x => x ^ 2)).sum - ((a :: t).sum) ^ 2) =
      (((t.length : ℚ) * (t.map (fun x => x ^ 2)).sum - (t.sum) ^ 2) +
        (t.map (fun x => (x - a) ^ 2)).sum) := by
  simp only [List.length_cons, List.map_cons, List.sum_cons, sum_sq_sub]
  push_cast
  ring

theorem list_var_nonneg (l : List ℚ) :
    0 ≤ (l.length : ℚ) * (l.map (fun x => x ^ 2)).sum - (l.sum) ^ 2 := by
  induction l with
  | nil => simp
  | cons a t ih =>
    rw [var_cons]
    refine add_nonneg ih (List.sum_nonneg ?_)
    intro x hx
    obtain ⟨z, _, rfl⟩ := List.mem_map.mp hx
    exact sq_nonneg _

theorem list_var_pos (l : List ℚ) (x y : ℚ) (hx : x ∈ l) (hy : y ∈ l) (hxy : x ≠ y) :
    0 < (l.length : ℚ) * (l.map (fun x => x ^ 2)).sum - (l.sum) ^ 2 := by
  induction l with
  | nil => simp at hx
  | cons a t ih =>
    rw [var_cons]
    by_cases hex : ∃ z ∈ t, z ≠ a
    · obtain ⟨z, hz, hza⟩ := hex
      have hterm : 0 < (z - a) ^ 2 :=
        lt_of_le_of_ne (sq_nonneg _) (Ne.symm (pow_ne_zero 2 (sub_ne_zero.mpr hza)))
      have hle : (z - a) ^ 2 ≤ (t.map (fun x => (x - a) ^ 2)).sum := by
        refine List.single_le_sum ?_ _ (List.mem_map_of_mem _ hz)
        intro w hw
        obtain ⟨w0, _, rfl⟩ := List.mem_map.mp hw
        exact sq_nonneg _
      have := list_var_nonneg t
      linarith
    · push_neg at hex
      exfalso
      have hxa : x = a := by
        rcases List.mem_cons.mp hx with h | h
        · exact h
        · exact hex x h
      have hya : y = a := by
        rcases List.mem_cons.mp hy with h | h
        · exact h
        · exact hex y h
      exact hxy (hxa.trans hya.symm)

theorem flatMap_single_map {α β : Type} (f : α → β) (l : List α) :
    (l.flatMap fun x => [f x]) = l.map f := by
  induction l with
  | nil => rfl
  | cons a t ih => simp [List.flatMap_cons, ih]

theorem filter_key_eq_singleton (s : List (String × ℚ))
    (hnd : (s.map Prod.fst).Nodup) (pa : String × ℚ) (hpa : pa ∈ s) :
    s.filter (fun pb => decide (pb.1 = pa.1)) = [pa] := by
  induction s with
  | nil => simp at hpa
  | cons q t ih =>
    rw [List.map_cons, List.nodup_cons] at hnd
    obtain ⟨hq, hndt⟩ := hnd
    rcases List.mem_cons.mp hpa with rfl | hpat
    · rw [List.filter_cons, if_pos (by simp)]
      have hnil : t.filter (fun pb => decide (pb.1 = pa.1)) = [] := by
        rw [List.filter_eq_nil_iff]
        intro b hb
        simp only [decide_eq_true_eq]
        intro hbq
        exact hq (hbq ▸ List.mem_map_of_mem Prod.fst hb)
      rw [hnil]
    · have hne : ¬(q.1 = pa.1) := by
        intro hqq
        exact hq (hqq ▸ List.mem_map_of_mem Prod.fst hpat)
      rw [List.filter_cons, if_neg (by simpa using hne)]
      exact ih hndt hpat

/-- With pairwise-distinct x labels, the self-join is the diagonal. -/
theorem merged_self (s : List (String × ℚ)) (hnd : (s.map Prod.fst).Nodup) :
    merged s s = (s.map Prod.snd).map (fun y => (y, y)) := by
  unfold merged
  have hcong : ∀ pa ∈ s,
      (s.filter (fun pb => decide (pb.1 = pa.1))).map (fun pb => (pa.2, pb.2)) =
        [(pa.2, pa.2)] := by
    intro pa hpa
    rw [filter_key_eq_singleton s hnd pa hpa]
    rfl
  rw [List.flatMap_congr hcong, flatMap_single_map, List.map_map]
  rfl

theorem diag_sums (ys : List ℚ) :
    sumA (ys.map fun y => (y, y)) = ys.sum ∧
      sumB (ys.map fun y => (y, y)) = ys.sum ∧
      sumAB (ys.map fun y => (y, y)) = (ys.map (fun y => y ^ 2)).sum ∧
      sumAA (ys.map fun y => (y, y)) = (ys.map (fun y => y ^ 2)).sum ∧
      sumBB (ys.map fun y => (y, y)) = (ys.map (fun y => y ^ 2)).sum := by
  refine ⟨?_, ?_, ?_, ?_, ?_⟩ <;>
    simp [sumA, sumB, sumAB, sumAA, sumBB, List.map_map, Function.comp_def, sq]

theorem diag_var (ys : List ℚ) :
    covN (ys.map fun y => (y, y)) =
        (ys.length : ℚ) * (ys.map (fun y => y ^ 2)).sum - (ys.sum) ^ 2 ∧
      varA (ys.map fun y => (y, y)) =
        (ys.length : ℚ) * (ys.map (fun y => y ^ 2)).sum - (ys.sum) ^ 2 ∧
      varB (ys.map fun y => (y, y)) =
        (ys.length : ℚ) * (ys.map (fun y => y ^ 2)).sum - (ys.sum) ^ 2 := by
  obtain ⟨h1, h2, h3, h4, h5⟩ := diag_sums ys
  unfold covN varA varB nQ
  rw [h1, h2, h3, h4, h5, List.length_map]
  refine ⟨by ring, by ring, by ring⟩

theorem diag_mape (ys : List ℚ) : mape (ys.map fun y => (y, y)) = 0 := by
  unfold mape
  have h : ((ys.map fun y => (y, y)).map fun p => |p.1 - p.2| / (|p.2| + EPS)) =
      ys.map (fun _ => (0 : ℚ)) := by
    rw [List.map_map]
    refine List.map_congr_left ?_
    intro y _
    simp [EPS]
  rw [h]
  have hz : (ys.map fun _ => (0 : ℚ)).sum = 0 := by
    induction ys with
    | nil => rfl
    | cons a t ih => simp [ih]
  rw [hz, zero_div]

/-- C5 counterexample: both sides carry the identical non-empty series
[("Jan", 100)], yet the verdict is "conflict", not "consistent" — the
single joined row has zero variance, pandas correlation is NaN, and every
`corr > t` comparison is false. -/
theorem compare_single_point_conflict :
    compare_verdict [("Jan", 100)] [("Jan", 100)] = "conflict" ∧
      compare_verdict [("Jan", 100)] [("Jan", 100)] ≠ "consistent" := by
  have hm : merged [("Jan", (100 : ℚ))] [("Jan", 100)] = [(100, 100)] := by
    have h := merged_self [("Jan", (100 : ℚ))] (by simp)
    simpa using h
  have hvar : varA [((100 : ℚ), 100)] = 0 := by
    norm_num [varA, nQ, sumAA, sumA]
  have hcg : ∀ t : ℚ, ¬corr_gt t [((100 : ℚ), 100)] := by
    rintro t ⟨⟨hA, -⟩, -, -⟩
    exact hA hvar
  have hv : compare_verdict [("Jan", 100)] [("Jan", 100)] = "conflict" := by
    unfold compare_verdict
    rw [hm]
    rw [if_neg (by simp)]
    rw [if_neg (by rintro ⟨hc, -⟩; exact hcg _ hc)]
    rw [if_neg (hcg _)]
  exact ⟨hv, by rw [hv]; decide⟩

/-- C5 (amended): identical non-empty series with pairwise-distinct x labels
and at least two distinct y values give correlation exactly 1, MAPE exactly
0, and verdict "consistent"; and an empty inner join always gives
"no_overlap". -/
theorem compare_identical_series :
    (∀ s : List (String × ℚ), s ≠ [] → (s.map Prod.fst).Nodup →
      (∃ p ∈ s, ∃ q ∈ s, p.2 ≠ q.2) →
      corr_eq_one (merged s s) ∧ mape (merged s s) = 0 ∧
        compare_verdict s s = "consistent") ∧
    (∀ a b : List (String × ℚ), merged a b = [] →
      compare_verdict a b = "no_overlap") := by
  constructor
  · rintro s hne hnd ⟨p, hp, q, hq, hpq⟩
    have hvp : 0 < ((s.map Prod.snd).length : ℚ) *
        ((s.map Prod.snd).map (fun y => y ^ 2)).sum - ((s.map Prod.snd).sum) ^ 2 :=
      list_var_pos (s.map Prod.snd) p.2 q.2 (List.mem_map_of_mem Prod.snd hp)
        (List.mem_map_of_mem Prod.snd hq) hpq
    obtain ⟨hc, ha, hb⟩ := diag_var (s.map Prod.snd)
    have hcorr1 : corr_eq_one (merged s s) := by
      rw [merged_self s hnd]
      exact ⟨⟨ha ▸ ne_of_gt hvp, hb ▸ ne_of_gt hvp⟩, hc ▸ hvp,
        by rw [hc, ha, hb]; ring⟩
    have hmape : mape (merged s s) = 0 := by
      rw [merged_self s hnd]
      exact diag_mape _
    refine ⟨hcorr1, hmape, ?_⟩
    unfold compare_verdict
    rw [merged_self s hnd] at hmape ⊢
    have hdne : (s.map Prod.snd).map (fun y => (y, y)) ≠ [] := by
      intro h
      exact hne (by simpa using List.map_eq_nil_iff.mp (List.map_eq_nil_iff.mp h))
    rw [if_neg hdne]
    have hcg : corr_gt (95/100) ((s.map Prod.snd).map (fun y => (y, y))) := by
      refine ⟨⟨ha ▸ ne_of_gt hvp, hb ▸ ne_of_gt hvp⟩, hc ▸ hvp, ?_⟩
      rw [hc, ha, hb]
      nlinarith [hvp]
    rw [if_pos ⟨hcg, by rw [hmape]; norm_num⟩]
  · intro a b h
    unfold compare_verdict
    rw [h, if_pos rfl]

/-- Concrete instantiation of amended C5 at the two-point series
[("Jan", 1), ("Feb", 2)] and at an empty join. -/
theorem compare_identical_series_witness :
    (([("Jan", (1 : ℚ)), ("Feb", 2)] : List (String × ℚ)) ≠ [] ∧
      (([("Jan", (1 : ℚ)), ("Feb", 2)] : List (String × ℚ)).map Prod.fst).Nodup ∧
      (∃ p ∈ ([("Jan", (1 : ℚ)), ("Feb", 2)] : List (String × ℚ)),
        ∃ q ∈ ([("Jan", (1 : ℚ)), ("Feb", 2)] : List (String × ℚ)), p.2 ≠ q.2) ∧
      compare_verdict [("Jan", (1 : ℚ)), ("Feb", 2)] [("Jan", (1 : ℚ)), ("Feb", 2)] =
        "consistent") ∧
    (merged [("x", (1 : ℚ))] [] = [] ∧
      compare_verdict [("x", (1 : ℚ))] [] = "no_overlap") := by
  have h1 : ([("Jan", (1 : ℚ)), ("Feb", 2)] : List (String × ℚ)) ≠ [] := by simp
  have h2 : (([("Jan", (1 : ℚ)), ("Feb", 2)] : List (String × ℚ)).map Prod.fst).Nodup := by
    simp
  have h3 : ∃ p ∈ ([("Jan", (1 : ℚ)), ("Feb", 2)] : List (String × ℚ)),
      ∃ q ∈ ([("Jan", (1 : ℚ)), ("Feb", 2)] : List (String × ℚ)), p.2 ≠ q.2 :=
    ⟨("Jan", 1), by simp, ("Feb", 2), by simp, by norm_num⟩
  have h4 : merged [("x", (1 : ℚ))] [] = [] := rfl
  exact ⟨⟨h1, h2, h3, (compare_identical_series.1 _ h1 h2 h3).2.2⟩,
    h4, compare_identical_series.2 _ _ h4⟩

end Compare

namespace CompareStore

theorem cmp_key_current_false_of_not_current (pid : String) (lext rext : Option String)
    (mname : String) (r : CmpRow) (h : r.curr_rec_ind = false) :
    cmp_key_current pid lext rext mname r = false := by
  simp [cmp_key_current, h]

theorem cmp_key_current_eqs {pid : String} {lext rext : Option String} {mname : String}
    {r : CmpRow} (h : cmp_key_current pid lext rext mname r = true) :
    r.pair_id = pid ∧ r.left_extraction_id = lext ∧ r.right_extraction_id = rext ∧
      r.model_name = mname ∧ r.curr_rec_ind = true := by
  simpa [cmp_key_current, Bool.and_eq_true, beq_iff_eq, and_assoc] using h

/-- After the update pass, no row of the natural key is still current. -/
theorem filter_update_same_key (rows : List CmpRow) (now : ℕ) (pid : String)
    (lext rext : Option String) (mname : String) :
    (rows.map (fun r =>
      if cmp_key_current pid lext rext mname r then
        { r with curr_rec_ind := false, rec_eff_end_dt := some now }
      else r)).filter (cmp_key_current pid lext rext mname) = [] := by
  rw [List.filter_eq_nil_iff]
  intro r' hr'
  obtain ⟨r, _, rfl⟩ := List.mem_map.mp hr'
  by_cases hk : cmp_key_current pid lext rext mname r = true
  · rw [if_pos hk]
    simp [cmp_key_current]
  · rw [if_neg hk]
    simpa using hk

/-- The update pass does not touch rows of any other natural key. -/
theorem filter_update_other_key (rows : List CmpRow) (now : ℕ) (pid pid2 : String)
    (lext rext lext2 rext2 : Option String) (mname mn2 : String)
    (hne : (pid2, lext2, rext2, mn2) ≠ (pid, lext, rext, mname)) :
    (rows.map (fun r =>
      if cmp_key_current pid lext rext mname r then
        { r with curr_rec_ind := false, rec_eff_end_dt := some now }
      else r)).filter (cmp_key_current pid2 lext2 rext2 mn2) =
      rows.filter (cmp_key_current pid2 lext2 rext2 mn2) := by
  induction rows with
  | nil => rfl
  | cons r t ih =>
    rw [List.map_cons, List.filter_cons, List.filter_cons]
    by_cases hk : cmp_key_current pid lext rext mname r = true
    · have hr2 : cmp_key_current pid2 lext2 rext2 mn2 r = false := by
        by_contra hc
        rw [Bool.not_eq_false] at hc
        obtain ⟨e1, e2, e3, e4, -⟩ := cmp_key_current_eqs hk
        obtain ⟨f1, f2, f3, f4, -⟩ := cmp_key_current_eqs hc
        exact hne (by
          simp only [Prod.mk.injEq]
          exact ⟨f1.symm.trans e1, f2.symm.trans e2, f3.symm.trans e3,
            f4.symm.trans e4⟩)
      rw [if_pos hk]
      rw [cmp_key_current_false_of_not_current pid2 lext2 rext2 mn2 _ rfl]
      rw [hr2]
      simpa using ih
    · rw [if_neg hk]
      by_cases h2 : cmp_key_current pid2 lext2 rext2 mn2 r = true
      · rw [h2]
        simpa [ih] using rfl
      · rw [Bool.not_eq_true] at h2
        rw [h2]
        simpa using ih

/-- C6 counterexample: resubmitting the byte-for-byte identical payload of
the one existing current row is not a no-op — `scd2_upsert_compare` (unlike
`scd2_upsert_pair`) has no "unchanged" branch: it end-dates the current row
and inserts a second row. -/
theorem scd2_upsert_compare_identical_not_noop :
    (scd2_upsert_compare
        [⟨"p", some "l", some "r", some "wl", some "wr", "llm", "m", "Matched", 1,
          [], 3, 3, 3, none, true⟩]
        9 "p" (some "l") (some "r") (some "wl") (some "wr") "Matched" 1 [] "llm" "m").2 =
      [⟨"p", some "l", some "r", some "wl", some "wr", "llm", "m", "Matched", 1,
          [], 3, 3, 3, some 9, false⟩,
        ⟨"p", some "l", some "r", some "wl", some "wr", "llm", "m", "Matched", 1,
          [], 9, 9, 9, none, true⟩] ∧
      (scd2_upsert_compare
        [⟨"p", some "l", some "r", some "wl", some "wr", "llm", "m", "Matched", 1,
          [], 3, 3, 3, none, true⟩]
        9 "p" (some "l") (some "r") (some "wl") (some "wr") "Matched" 1 [] "llm" "m").2.length =
        2 := ⟨rfl, rfl⟩

/-- C6 (amended): `scd2_upsert_compare` follows the end-date-and-insert half
of the SCD-2 discipline keyed by (pair id, left extraction id, right
extraction id, model name): every submission — identical payloads included —
appends exactly one row, leaves the new payload as the single current row of
its natural key, and leaves every other natural key untouched; the identical
no-op ("unchanged") branch of `scd2_upsert_pair` does not exist here. -/
theorem scd2_upsert_compare_always_inserts (rows : List CmpRow) (now : ℕ)
    (pid : String) (lext rext lwid rwid : Option String) (verdict : String)
    (conf : ℚ) (reasons : List String) (mode mname : String) :
    ((scd2_upsert_compare rows now pid lext rext lwid rwid verdict conf reasons
        mode mname).2.length = rows.length + 1) ∧
      (cmp_currents (scd2_upsert_compare rows now pid lext rext lwid rwid verdict
          conf reasons mode mname).2 pid lext rext mname =
        [⟨pid, lext, rext, lwid, rwid, mode, mname, verdict, conf, reasons,
          now, now, now, none, true⟩]) ∧
      (∀ (pid2 : String) (lext2 rext2 : Option String) (mn2 : String),
        (pid2, lext2, rext2, mn2) ≠ (pid, lext, rext, mname) →
        cmp_currents (scd2_upsert_compare rows now pid lext rext lwid rwid verdict
            conf reasons mode mname).2 pid2 lext2 rext2 mn2 =
          cmp_currents rows pid2 lext2 rext2 mn2) := by
  refine ⟨?_, ?_, ?_⟩
  · unfold scd2_upsert_compare
    dsimp only
    rw [List.length_append, List.length_map]
    rfl
  · unfold scd2_upsert_compare cmp_currents
    dsimp only
    rw [List.filter_append, filter_update_same_key, List.nil_append,
      List.filter_cons]
    rw [if_pos (by simp [cmp_key_current])]
    rfl
  · intro pid2 lext2 rext2 mn2 hne
    unfold scd2_upsert_compare cmp_currents
    dsimp only
    rw [List.filter_append, filter_update_other_key rows now pid pid2 lext rext
      lext2 rext2 mname mn2 hne, List.filter_cons]
    have hpl : cmp_key_current pid2 lext2 rext2 mn2
        (⟨pid, lext, rext, lwid, rwid, mode, mname, verdict, conf, reasons,
          now, now, now, none, true⟩ : CmpRow) = false := by
      by_contra hc
      rw [Bool.not_eq_false] at hc
      obtain ⟨f1, f2, f3, f4, -⟩ := cmp_key_current_eqs hc
      exact hne (by
        simp only [Prod.mk.injEq]
        exact ⟨f1.symm, f2.symm, f3.symm, f4.symm⟩)
    rw [hpl]
    simp

/-- Concrete instantiation of amended C6: an insert under key ("p", l, r, "m")
leaves the current row of key ("q", l, r, "m") untouched. -/
theorem scd2_upsert_compare_always_inserts_witness :
    ("q", some "l", some "r", "m") ≠ ("p", some "l", some "r", "m") ∧
      cmp_currents (scd2_upsert_compare [] 9 "p" (some "l") (some "r") (some "wl")
          (some "wr") "Matched" 1 [] "llm" "m").2 "q" (some "l") (some "r") "m" =
        cmp_currents [] "q" (some "l") (some "r") "m" := by
  have hne : (("q", some "l", some "r", "m") :
      String × Option String × Option String × String) ≠
      ("p", some "l", some "r", "m") := by
    simp
  exact ⟨hne,
    (scd2_upsert_compare_always_inserts [] 9 "p" (some "l") (some "r") (some "wl")
      (some "wr") "Matched" 1 [] "llm" "m").2.2 "q" (some "l") (some "r") "m" hne⟩

end CompareStore

namespace Capture

/-- C7 counterexample: when both engines fail with distinct messages, the one
raised error carries only the last (webkit) attempt's message — the chromium
message has been overwritten in `last_err` and is absent from the error. -/
theorem capture_url_drops_first_error :
    capture_url (fun e =>
        (Except.error (if e = "chromium" then "errA" else "errB") :
          Except String Unit)) =
      .error "All capture attempts failed.\n[webkit] errB" ∧
      ¬("errA".toList <:+: "All capture attempts failed.\n[webkit] errB".toList) ∧
      ("errB".toList <:+: "All capture attempts failed.\n[webkit] errB".toList) := by
  refine ⟨?_, by decide, by decide⟩
  rfl

/-- C7 (amended): when every engine attempt fails, `capture_url` raises
exactly one aggregated error (never a silent empty result), but its message
carries only the LAST attempt's failure message — `last_err` is overwritten,
not appended, so earlier engines' messages are dropped; and a successful
first attempt is returned as-is. -/
theorem capture_url_aggregates_last_error {α : Type}
    (attempt : String → Except String α) (mA mB : String)
    (hA : attempt "chromium" = .error mA) (hB : attempt "webkit" = .error mB) :
    capture_url attempt =
      .error ("All capture attempts failed.\n" ++ ("[" ++ "webkit" ++ "] " ++ mB)) := by
  unfold capture_url engines
  rw [capture_go.eq_def]
  dsimp only
  rw [hA]
  dsimp only
  rw [capture_go.eq_def]
  dsimp only
  rw [hB]
  dsimp only
  rw [capture_go.eq_def]
  rfl

/-- Concrete instantiation of amended C7. -/
theorem capture_url_aggregates_last_error_witness :
    ((fun _ => (Except.error "boom" : Except String Unit)) "chromium" =
        .error "boom") ∧
      capture_url (fun _ => (Except.error "boom" : Except String Unit)) =
        .error ("All capture attempts failed.\n" ++ ("[" ++ "webkit" ++ "] " ++ "boom")) :=
  ⟨rfl, capture_url_aggregates_last_error (fun _ => .error "boom") "boom" "boom"
    rfl rfl⟩

end Capture

end KDH
